import Mathlib

/-!
Shallow embedding of the Dots game core (`src/dots/game_logic.py` and
`src/dots/leaderboard.py`) and proofs about it.

Conventions:
* Python `int` coordinates are `ℤ`; cell contents are `ℕ` (0 = empty,
  1 = player 1, 2 = player 2).
* The mutable `GameLogic` object is a `GameState` record; every mutating
  Python method becomes a function returning the updated record.
* `self._grid[y][x]` becomes `grid y x`.
* The unbounded BFS `while queue:` loop of `_get_group_with_status` is run
  with fuel `(w+1)*(h+1)+1`; `bfsRun_queue_empty` below proves this fuel
  always drains the queue, so the fueled function agrees with the
  unbounded loop.
-/

namespace Dots

/-- A board coordinate `(x, y)`. -/
abbrev Cell := ℤ × ℤ

/-- Modelled from the spec: the `constants` module (CELL_SIZE, OFFSET_X,
OFFSET_Y) is rendering geometry outside the core ("non-goals: rendering
geometry"); the exact values never influence game logic, only the literal
coordinates stored in the derived segment list. -/
def CELL_SIZE : ℤ := 40

/-- Modelled from the spec: rendering offset, see `CELL_SIZE`. -/
def OFFSET_X : ℤ := 50

/-- Modelled from the spec: rendering offset, see `CELL_SIZE`. -/
def OFFSET_Y : ℤ := 50

def PLAYER_1 : ℕ := 1
def PLAYER_2 : ℕ := 2
def EMPTY_CELL : ℕ := 0

def FOUR_DIRECTIONS : List (ℤ × ℤ) := [(-1, 0), (1, 0), (0, -1), (0, 1)]

def EIGHT_DIRECTIONS : List (ℤ × ℤ) :=
  [(-1, -1), (-1, 0), (-1, 1), (0, -1), (0, 1), (1, -1), (1, 0), (1, 1)]

def MAX_ATTEMPTS : ℕ := 500

/-- `opponent = PLAYER_2 if p == PLAYER_1 else PLAYER_1` (used with both
`player` and `current_player` arguments in the source). -/
def opponent_of (p : ℕ) : ℕ := if p = PLAYER_1 then PLAYER_2 else PLAYER_1

/-- `self.player_colors = {1: "darkblue", 2: "darkred"}`; only ever read at
keys 1 and 2. -/
def player_colors (p : ℕ) : String := if p = PLAYER_1 then "darkblue" else "darkred"

/-- A rendering segment `(x1, y1, x2, y2, color)` from `self.lines`. -/
abbrev Line := ℤ × ℤ × ℤ × ℤ × String

/-- The mutable state of a `GameLogic` object. `scores` is the dict
`{1: _, 2: _}` as a total function (read/written only at keys 1, 2);
`controlledAreas` is `self._controlled_areas`, initialized and never used
afterwards. -/
structure GameState where
  gridWidth : ℕ
  gridHeight : ℕ
  scores : ℕ → ℕ
  grid : ℤ → ℤ → ℕ
  currentPlayer : ℕ
  lines : List Line
  lastCaptured : ℕ
  totalCells : ℕ
  filledCells : ℕ
  controlledAreas : ℕ → List Cell

/-- `GameLogic.__init__(width, height, game_ui)`; the `game_ui`
collaborator is a pure notification sink and carries no game state. -/
def GameLogic_init (width height : ℕ) : GameState where
  gridWidth := width
  gridHeight := height
  scores := fun _ => 0
  grid := fun _ _ => EMPTY_CELL
  currentPlayer := PLAYER_1
  lines := []
  lastCaptured := 0
  totalCells := (width + 1) * (height + 1)
  filledCells := 0
  controlledAreas := fun _ => []

/-- Pointwise grid write `self._grid[y][x] = v`. -/
def setCell (g : ℤ → ℤ → ℕ) (x y : ℤ) (v : ℕ) : ℤ → ℤ → ℕ :=
  fun yy xx => if yy = y ∧ xx = x then v else g yy xx

/-- Pointwise dict write `self.scores[p] = v`. -/
def setScore (sc : ℕ → ℕ) (p : ℕ) (v : ℕ) : ℕ → ℕ :=
  fun q => if q = p then v else sc q

/-- The in-bounds test `0 <= x <= self._grid_width and 0 <= y <= self._grid_height`,
parameterized by the two dimensions. -/
def inBounds (w h : ℕ) (c : Cell) : Prop :=
  0 ≤ c.1 ∧ c.1 ≤ (w : ℤ) ∧ 0 ≤ c.2 ∧ c.2 ≤ (h : ℤ)

instance (w h : ℕ) (c : Cell) : Decidable (inBounds w h c) := by
  unfold inBounds; infer_instance

/-- `GameLogic._is_board_full`. -/
def is_board_full (s : GameState) : Bool := s.totalCells ≤ s.filledCells

/-- `GameLogic.is_valid_move`. -/
def is_valid_move (s : GameState) (x y : ℤ) : Bool :=
  if ¬ inBounds s.gridWidth s.gridHeight (x, y) then false
  else s.grid y x == EMPTY_CELL

/-- `GameLogic._validate_move` (textually identical to `is_valid_move`). -/
def validate_move (s : GameState) (x y : ℤ) : Bool :=
  if ¬ inBounds s.gridWidth s.gridHeight (x, y) then false
  else s.grid y x == EMPTY_CELL

/-- `GameLogic._execute_move`. -/
def execute_move (s : GameState) (x y : ℤ) : GameState :=
  { s with grid := setCell s.grid x y s.currentPlayer, filledCells := s.filledCells + 1 }

/-! ### `GameLogic._get_group_with_status`

The BFS reads only `self._grid_width`, `self._grid_height`, `self._grid`
and its `player` argument, so it is embedded over those four values;
`get_group_with_status` below instantiates them from a `GameState`. -/

/-- The loop state of the BFS in `_get_group_with_status`: the pending
`queue`, the `visited` 2D boolean array (as the set of true cells), the
accumulated `group` list and the tentative `is_surrounded` flag. -/
structure BfsState where
  queue : List Cell
  visited : Finset Cell
  group : List Cell
  surrounded : Bool

/-- The body of the inner `for dx, dy in self.FOUR_DIRECTIONS` loop of the
BFS: in-bounds unvisited passable neighbors are marked visited and
enqueued; an out-of-bounds neighbor clears the `is_surrounded` flag. -/
def visitDir (w h : ℕ) (grid : ℤ → ℤ → ℕ) (player : ℕ) (c : Cell)
    (st : BfsState) (d : ℤ × ℤ) : BfsState :=
  let nx := c.1 + d.1
  let ny := c.2 + d.2
  if inBounds w h (nx, ny) then
    if (nx, ny) ∉ st.visited then
      if grid ny nx = player ∨ grid ny nx = EMPTY_CELL then
        { st with visited := insert (nx, ny) st.visited, queue := st.queue ++ [(nx, ny)] }
      else st
    else st
  else { st with surrounded := false }

/-- One iteration of `while queue:`: pop the front cell, append it to
`group`, and scan its four neighbors. -/
def bfsStep (w h : ℕ) (grid : ℤ → ℤ → ℕ) (player : ℕ) (c : Cell)
    (st : BfsState) : BfsState :=
  FOUR_DIRECTIONS.foldl (visitDir w h grid player c) st

/-- The fueled `while queue:` loop. `bfsRun_queue_empty` proves fuel
`(w+1)*(h+1)+1` always suffices to drain the queue, so this equals the
unbounded Python loop. -/
def bfsRun (w h : ℕ) (grid : ℤ → ℤ → ℕ) (player : ℕ) : ℕ → BfsState → BfsState
  | 0, st => st
  | fuel + 1, st =>
    match st.queue with
    | [] => st
    | c :: rest =>
      bfsRun w h grid player fuel
        (bfsStep w h grid player c { st with queue := rest, group := st.group ++ [c] })

/-- One direction of the post-traversal re-scan (step 4): `true` unless the
neighbor is in-bounds, not in `group`, and not the opponent's mark. -/
def boundary_ok (w h : ℕ) (grid : ℤ → ℤ → ℕ) (opponent : ℕ) (group : List Cell)
    (c : Cell) (d : ℤ × ℤ) : Bool :=
  let nx := c.1 + d.1
  let ny := c.2 + d.2
  if inBounds w h (nx, ny) then
    decide ((nx, ny) ∈ group) || decide (grid ny nx = opponent)
  else true

/-- `GameLogic._get_group_with_status` over the fields it reads. The
post-traversal re-scan sets `is_surrounded = False` and breaks at the first
violating neighbor of the first violating group cell; since the flag only
ever goes from `true` to `false`, the short-circuiting double loop computes
exactly the conjunction `st.surrounded && all cells pass`, which is how it
is written here. -/
def groupWithStatus (w h : ℕ) (grid : ℤ → ℤ → ℕ) (x y : ℤ) (player : ℕ) :
    List Cell × Bool :=
  let opponent := opponent_of player
  let st := bfsRun w h grid player ((w + 1) * (h + 1) + 1)
    ⟨[(x, y)], {(x, y)}, [], true⟩
  let surrounded := st.surrounded &&
    st.group.all fun c => FOUR_DIRECTIONS.all (boundary_ok w h grid opponent st.group c)
  (st.group, surrounded)

/-- `GameLogic._get_group_with_status` on a `GameState`. -/
def get_group_with_status (s : GameState) (x y : ℤ) (player : ℕ) : List Cell × Bool :=
  groupWithStatus s.gridWidth s.gridHeight s.grid x y player

/-! ### Capture resolution and `place_dot` -/

/-- `sum(1 for gx, gy in group if self._grid[gy][gx] == p)`. -/
def countOwned (grid : ℤ → ℤ → ℕ) (p : ℕ) (group : List Cell) : ℕ :=
  group.countP fun c => decide (grid c.2 c.1 = p)

/-- The body of the `for dx, dy in self.FOUR_DIRECTIONS` loop of
`_check_captures` (`opponent` is computed once before the loop). -/
def check_captures_step (s : GameState) (opponent : ℕ) (x y : ℤ) (acc : ℕ)
    (d : ℤ × ℤ) : ℕ :=
  let nx := x + d.1
  let ny := y + d.2
  if inBounds s.gridWidth s.gridHeight (nx, ny) then
    if s.grid ny nx = opponent then
      let gs := get_group_with_status s nx ny opponent
      if gs.2 then acc + countOwned s.grid opponent gs.1 else acc
    else acc
  else acc

/-- `GameLogic._check_captures`: returns the captured count and the state
with `self.last_captured` updated (grid and scores untouched). -/
def check_captures (s : GameState) (x y : ℤ) : ℕ × GameState :=
  let opponent := opponent_of s.currentPlayer
  let captured := FOUR_DIRECTIONS.foldl (check_captures_step s opponent x y) 0
  (captured, { s with lastCaptured := captured })

/-- `GameLogic._handle_captures` (the `update_scoreboard` call is the
collaborator notification and carries no state). -/
def handle_captures (s : GameState) (x y : ℤ) : GameState :=
  let res := check_captures s x y
  let captures := res.1
  let s1 := res.2
  if 0 < captures then
    { s1 with scores := setScore s1.scores s1.currentPlayer (s1.scores s1.currentPlayer + captures) }
  else s1

/-- The body of the direction loop of `_check_self_capture`. -/
def check_self_capture_step (x y : ℤ) (st : GameState) (d : ℤ × ℤ) : GameState :=
  let nx := x + d.1
  let ny := y + d.2
  if inBounds st.gridWidth st.gridHeight (nx, ny) then
    if st.grid ny nx = st.currentPlayer then
      let gs := get_group_with_status st nx ny st.currentPlayer
      if gs.2 then
        let selfCaptures := countOwned st.grid st.currentPlayer gs.1
        if 0 < selfCaptures then
          { st with scores := (setScore st.scores (opponent_of st.currentPlayer)
              (st.scores (opponent_of st.currentPlayer) + selfCaptures)) }
        else st
      else st
    else st
  else st

/-- `GameLogic._check_self_capture`: each of the four directions can add
the mover-owned size of a surrounded own group to the opponent's score. -/
def check_self_capture (s : GameState) (x y : ℤ) : GameState :=
  FOUR_DIRECTIONS.foldl (check_self_capture_step x y) s

/-- The body of the direction loop of `_check_neighbors` (`color` is read
from `player_colors[current_player]` before the loop). -/
def check_neighbors_step (x y : ℤ) (st : GameState) (d : ℤ × ℤ) : GameState :=
  let nx := x + d.1
  let ny := y + d.2
  if inBounds st.gridWidth st.gridHeight (nx, ny) then
    if st.grid ny nx = st.currentPlayer then
      let line : Line := (x * CELL_SIZE + OFFSET_X, y * CELL_SIZE + OFFSET_Y,
        nx * CELL_SIZE + OFFSET_X, ny * CELL_SIZE + OFFSET_Y,
        player_colors st.currentPlayer)
      if line ∈ st.lines then st else { st with lines := st.lines ++ [line] }
    else st
  else st

/-- `GameLogic._check_neighbors`: record a deduplicated segment to each
8-directionally adjacent same-color mark. -/
def check_neighbors (s : GameState) (x y : ℤ) : GameState :=
  EIGHT_DIRECTIONS.foldl (check_neighbors_step x y) s

/-- `GameLogic.place_dot`: the returned `Bool` is the Python return value
(`True` means the move ended the game). -/
def place_dot (s : GameState) (x y : ℤ) : Bool × GameState :=
  if ¬ validate_move s x y then (false, s)
  else
    let s1 := execute_move s x y
    if is_board_full s1 then (true, s1)
    else
      let s2 := check_neighbors s1 x y
      let s3 := handle_captures s2 x y
      let s4 := check_self_capture s3 x y
      (is_board_full s4, s4)

/-- `GameLogic.switch_player`. -/
def switch_player (s : GameState) : GameState :=
  { s with currentPlayer := opponent_of s.currentPlayer }

/-! ### AI move selection

Python draws from the process-global `random` module. The embedding passes
the random sources explicitly: `make_ai_move_random` consumes a list of
pre-drawn `randint` coordinate pairs (the `attempts < MAX_ATTEMPTS` cap of
the source corresponds to a draw list of length `MAX_ATTEMPTS`), and the
smart strategy's `random.random() < 0.5` tie-break coin flips come from a
boolean stream indexed by how many flips have been drawn so far. -/

/-- `GameLogic.make_ai_move_random`, one recursive call per loop attempt;
`draws` holds the successive `(randint, randint)` results. -/
def make_ai_move_random (s : GameState) : List Cell → Option Cell × GameState
  | [] => (none, s)
  | c :: rest =>
    if is_valid_move s c.1 c.2 then
      let res := place_dot s c.1 c.2
      if res.1 then (none, res.2) else (some c, res.2)
    else make_ai_move_random s rest

/-- `GameLogic._would_capture_player`. -/
def would_capture_player (s : GameState) (x y : ℤ) : Bool :=
  FOUR_DIRECTIONS.any fun d =>
    let nx := x + d.1
    let ny := y + d.2
    decide (inBounds s.gridWidth s.gridHeight (nx, ny)) &&
      (s.grid ny nx == PLAYER_1) && (get_group_with_status s nx ny PLAYER_1).2

/-- The row-major scan order of `_find_capture_move`, `_get_player_dots`:
`y` outer, `x` inner, from `(0, 0)`. -/
def scanCells (w h : ℕ) : List Cell :=
  (List.range (h + 1)).flatMap fun y =>
    (List.range (w + 1)).map fun (x : ℕ) => ((x : ℤ), (y : ℤ))

/-- `GameLogic._find_capture_move`: first cell in row-major order that is a
valid move and passes `_would_capture_player`. -/
def find_capture_move (s : GameState) : Option Cell :=
  (scanCells s.gridWidth s.gridHeight).find? fun c =>
    is_valid_move s c.1 c.2 && would_capture_player s c.1 c.2

/-- `GameLogic._get_player_dots`. -/
def get_player_dots (s : GameState) : List Cell :=
  (scanCells s.gridWidth s.gridHeight).filter fun c => decide (s.grid c.2 c.1 = PLAYER_1)

/-- `GameLogic._get_candidate_moves`. -/
def get_candidate_moves (s : GameState) (playerDots : List Cell) : List Cell :=
  playerDots.flatMap fun c =>
    EIGHT_DIRECTIONS.filterMap fun d =>
      let nx := c.1 + d.1
      let ny := c.2 + d.2
      if inBounds s.gridWidth s.gridHeight (nx, ny) then
        if is_valid_move s nx ny then some (nx, ny) else none
      else none

/-- `GameLogic._calculate_move_score`. -/
def calculate_move_score (s : GameState) (x y : ℤ) : ℕ :=
  EIGHT_DIRECTIONS.foldl
    (fun score d =>
      let nx := x + d.1
      let ny := y + d.2
      if inBounds s.gridWidth s.gridHeight (nx, ny) then
        if s.grid ny nx = PLAYER_1 then score + 3
        else if s.grid ny nx = PLAYER_2 then score + 1
        else score
      else score) 0

/-- The `for x, y in candidates` loop of `_select_best_move`: `best` and
`best_score` (which starts at `-1`, hence `ℤ`) thread through, `i` counts
the tie-break coins drawn so far. -/
def select_best_go (s : GameState) (coins : ℕ → Bool) :
    List Cell → Cell → ℤ → ℕ → Cell
  | [], best, _, _ => best
  | c :: rest, best, bestScore, i =>
    let score : ℤ := calculate_move_score s c.1 c.2
    if bestScore < score then select_best_go s coins rest c score i
    else if score = bestScore then
      if coins i then select_best_go s coins rest c score (i + 1)
      else select_best_go s coins rest best bestScore (i + 1)
    else select_best_go s coins rest best bestScore i

/-- `GameLogic._select_best_move`. The `[]` branch is unreachable (its only
caller `_find_strategic_move` already returned `None` on an empty candidate
list); in the source that dead branch would fire a random move and return
its coordinate or `(0, 0)`, here it returns `(0, 0)`. -/
def select_best_move (s : GameState) (coins : ℕ → Bool) (candidates : List Cell) : Cell :=
  match candidates with
  | [] => (0, 0)
  | c0 :: _ => select_best_go s coins candidates c0 (-1) 0

/-- `GameLogic._find_strategic_move`. -/
def find_strategic_move (s : GameState) (coins : ℕ → Bool) : Option Cell :=
  let playerDots := get_player_dots s
  if playerDots = [] then none
  else
    let candidateMoves := get_candidate_moves s playerDots
    if candidateMoves = [] then none
    else some (select_best_move s coins candidateMoves)

/-- `GameLogic._execute_ai_move`. -/
def execute_ai_move (s : GameState) (x y : ℤ) : Option Cell × GameState :=
  let res := place_dot s x y
  if res.1 then (none, res.2) else (some (x, y), res.2)

/-- `GameLogic.make_ai_move_smart` (a found move, always a coordinate pair,
is truthy in Python, so `if capture_move:` is a `match` on the option). -/
def make_ai_move_smart (s : GameState) (coins : ℕ → Bool) (draws : List Cell) :
    Option Cell × GameState :=
  match find_capture_move s with
  | some c => execute_ai_move s c.1 c.2
  | none =>
    match find_strategic_move s coins with
    | some c => execute_ai_move s c.1 c.2
    | none => make_ai_move_random s draws

/-! ### Leaderboard (`src/dots/leaderboard.py`)

`load_leaderboard`/`save_leaderboard` are JSON file I/O; `update_leaderboard`
is embedded as a pure function from the loaded record list (what
`load_leaderboard()` returned) to the persisted record list (what
`save_leaderboard` wrote), plus the Python return value. -/

def LEADERBOARD_SIZE : ℕ := 3
def DEFAULT_NAME : String := "None"

structure LeaderboardEntry where
  place : ℕ
  name : String
  score : ℤ
deriving DecidableEq

/-- The sort key: `x.score if x.name != _DEFAULT_NAME else -1`. -/
def entryKey (e : LeaderboardEntry) : ℤ :=
  if e.name ≠ DEFAULT_NAME then e.score else -1

/-- The order produced by `leaderboard.sort(key=..., reverse=True)`:
descending by `entryKey`. -/
def entryGE (a b : LeaderboardEntry) : Prop := entryKey b ≤ entryKey a

instance : DecidableRel entryGE := fun a b => by unfold entryGE; infer_instance

instance : IsTotal LeaderboardEntry entryGE :=
  ⟨fun a b => le_total (entryKey b) (entryKey a)⟩

instance : IsTrans LeaderboardEntry entryGE :=
  ⟨fun _ _ _ hab hbc => le_trans hbc hab⟩

/-- `update_leaderboard` over the loaded list: returns the Python `bool`
and the list as persisted (unchanged when rejected). `leaderboard[-1]` on
the 3-record list is `getLast?`; the `none` branch is unreachable for the
nonempty lists the file format guarantees. Python's `sort` is stable, and
`sort(key, reverse=True)` is the stable descending-by-key sort, which any
stable sort realizes; it is embedded as `insertionSort` by `entryGE`. -/
def update_leaderboard (lb : List LeaderboardEntry) (newName : String) (newScore : ℤ) :
    Bool × List LeaderboardEntry :=
  match lb.getLast? with
  | none => (false, lb)
  | some lastEntry =>
    if newScore ≤ lastEntry.score ∧ lastEntry.name ≠ DEFAULT_NAME then (false, lb)
    else
      let appended := lb ++ [⟨0, newName, newScore⟩]
      let sorted := appended.insertionSort entryGE
      let truncated := sorted.take LEADERBOARD_SIZE
      (true, (List.enumFrom 1 truncated).map fun p => { p.2 with place := p.1 })

/-! ## Specification-side description of the group analyzer

`Reaches` is the claim's "reachable from the seed by 4-directional steps
through cells that are `Empty` or `Owner(targetOwner)`". -/

/-- `c` shifted by direction `d`. -/
def shift (c d : Cell) : Cell := (c.1 + d.1, c.2 + d.2)

/-- A cell the BFS may step onto: the target player's mark or empty. -/
def passable (grid : ℤ → ℤ → ℕ) (player : ℕ) (c : Cell) : Prop :=
  grid c.2 c.1 = player ∨ grid c.2 c.1 = EMPTY_CELL

instance (grid : ℤ → ℤ → ℕ) (player : ℕ) (c : Cell) : Decidable (passable grid player c) := by
  unfold passable; infer_instance

/-- One 4-directional step of the traversal: the destination is in-bounds
and passable. -/
def stepRel (w h : ℕ) (grid : ℤ → ℤ → ℕ) (player : ℕ) (c d : Cell) : Prop :=
  (∃ dir ∈ FOUR_DIRECTIONS, d = shift c dir) ∧ inBounds w h d ∧ passable grid player d

/-- Reachability from the seed through empty/target-owner cells. -/
def Reaches (w h : ℕ) (grid : ℤ → ℤ → ℕ) (player : ℕ) (seed c : Cell) : Prop :=
  Relation.ReflTransGen (stepRel w h grid player) seed c

/-- The finite set of in-bounds cells. -/
def allCells (w h : ℕ) : Finset Cell :=
  Finset.Icc (0 : ℤ) (w : ℤ) ×ˢ Finset.Icc (0 : ℤ) (h : ℤ)

lemma mem_allCells {w h : ℕ} {c : Cell} : c ∈ allCells w h ↔ inBounds w h c := by
  cases c with
  | mk x y =>
    simp only [allCells, inBounds, Finset.mem_product, Finset.mem_Icc]
    tauto

/-- The invariant of `while queue:`: `visited` is exactly the processed
(`group`) plus pending (`queue`) cells, every visited cell is in-bounds and
reachable from the seed, processed cells have all their step-successors
visited, and the `is_surrounded` flag is down exactly when some processed
cell has an out-of-bounds neighbor. -/
structure BfsInv (w h : ℕ) (grid : ℤ → ℤ → ℕ) (player : ℕ) (seed : Cell) (st : BfsState) : Prop where
  vis_eq : st.visited = st.group.toFinset ∪ st.queue.toFinset
  vis_inB : ∀ v ∈ st.visited, inBounds w h v
  vis_reach : ∀ v ∈ st.visited, Reaches w h grid player seed v
  closed : ∀ g ∈ st.group, ∀ v, stepRel w h grid player g v → v ∈ st.visited
  surr_iff : st.surrounded = true ↔
    ∀ g ∈ st.group, ∀ d ∈ FOUR_DIRECTIONS, inBounds w h (shift g d)

/-! ## Capture sums as written in the specification

`captureSum` is the claim's "sum, over each of the four 4-directional
neighbors of `(x, y)` holding the opponent's mark, of the number of
opponent-owned cells in that neighbor's group when that group is enclosed"
(per direction, with no shared visited set); `selfCaptureSum` is the
analogous self-capture sum over neighbors holding the mover's own mark. -/

/-- The score contribution of one neighbor direction to opponent capture. -/
def captureContribution (w h : ℕ) (grid : ℤ → ℤ → ℕ) (cp : ℕ) (x y : ℤ)
    (d : ℤ × ℤ) : ℕ :=
  let nx := x + d.1
  let ny := y + d.2
  if inBounds w h (nx, ny) then
    if grid ny nx = opponent_of cp then
      if (groupWithStatus w h grid nx ny (opponent_of cp)).2 then
        countOwned grid (opponent_of cp) (groupWithStatus w h grid nx ny (opponent_of cp)).1
      else 0
    else 0
  else 0

/-- Mover `cp` placing at `(x, y)`: total opponent cells captured, counted
once per direction that reaches an enclosed opponent group. -/
def captureSum (w h : ℕ) (grid : ℤ → ℤ → ℕ) (cp : ℕ) (x y : ℤ) : ℕ :=
  (FOUR_DIRECTIONS.map (captureContribution w h grid cp x y)).sum

/-- The score contribution of one neighbor direction to self-capture. -/
def selfCaptureContribution (w h : ℕ) (grid : ℤ → ℤ → ℕ) (cp : ℕ) (x y : ℤ)
    (d : ℤ × ℤ) : ℕ :=
  let nx := x + d.1
  let ny := y + d.2
  if inBounds w h (nx, ny) then
    if grid ny nx = cp then
      if (groupWithStatus w h grid nx ny cp).2 then
        countOwned grid cp (groupWithStatus w h grid nx ny cp).1
      else 0
    else 0
  else 0

/-- Mover `cp` placing at `(x, y)`: total own cells self-captured, credited
to the opponent, once per direction reaching an enclosed own group. -/
def selfCaptureSum (w h : ℕ) (grid : ℤ → ℤ → ℕ) (cp : ℕ) (x y : ℤ) : ℕ :=
  (FOUR_DIRECTIONS.map (selfCaptureContribution w h grid cp x y)).sum

/-- The fields of the game state that capture resolution never changes. -/
def CoreEq (s t : GameState) : Prop :=
  s.gridWidth = t.gridWidth ∧ s.gridHeight = t.gridHeight ∧ s.grid = t.grid ∧
    s.currentPlayer = t.currentPlayer ∧ s.filledCells = t.filledCells ∧
    s.totalCells = t.totalCells

/-! ## Further specification-side definitions and concrete test boards -/

/-- The number of non-empty in-bounds cells of the board. -/
def filledCount (s : GameState) : ℕ :=
  ((allCells s.gridWidth s.gridHeight).filter fun c => s.grid c.2 c.1 ≠ EMPTY_CELL).card

/-- The inductive invariant of reachable states: the filled-cell counter
matches the board, `totalCells` is the cell count of the dimensions, and
the current player is one of the two players. -/
def StateInv (s : GameState) : Prop :=
  s.filledCells = filledCount s ∧
  s.totalCells = (s.gridWidth + 1) * (s.gridHeight + 1) ∧
  (s.currentPlayer = PLAYER_1 ∨ s.currentPlayer = PLAYER_2)

/-- Game states reachable from a fresh `GameLogic.__init__` state by any
sequence of `place_dot`, `switch_player` and AI-move operations. -/
inductive Reachable : GameState → Prop where
  | init (width height : ℕ) : Reachable (GameLogic_init width height)
  | place {s : GameState} (x y : ℤ) : Reachable s → Reachable (place_dot s x y).2
  | switch {s : GameState} : Reachable s → Reachable (switch_player s)
  | ai_random {s : GameState} (draws : List Cell) :
      Reachable s → Reachable (make_ai_move_random s draws).2
  | ai_smart {s : GameState} (coins : ℕ → Bool) (draws : List Cell) :
      Reachable s → Reachable (make_ai_move_smart s coins draws).2

/-- Row-major order: `a` is scanned strictly before `b` (`y` outer, `x` inner). -/
def RowBefore (a b : Cell) : Prop := a.2 < b.2 ∨ (a.2 = b.2 ∧ a.1 < b.1)

instance (a b : Cell) : Decidable (RowBefore a b) := by
  unfold RowBefore; infer_instance

/-- The criterion the specification ascribes to the capture-seeking tier of
the smart AI: an empty valid cell with a `PLAYER_1` 4-neighbor such that
actually placing the current player's mark there would render that
neighbor's group enclosed. -/
def wouldRenderEnclosed (s : GameState) (x y : ℤ) : Prop :=
  is_valid_move s x y = true ∧
    ∃ d ∈ FOUR_DIRECTIONS,
      inBounds s.gridWidth s.gridHeight (shift (x, y) d) ∧
      s.grid (shift (x, y) d).2 (shift (x, y) d).1 = PLAYER_1 ∧
      (get_group_with_status (execute_move s x y) (shift (x, y) d).1 (shift (x, y) d).2
        PLAYER_1).2 = true

instance (s : GameState) (x y : ℤ) : Decidable (wouldRenderEnclosed s x y) := by
  unfold wouldRenderEnclosed; infer_instance

/-- 2×2 test board: a single PLAYER_1 mark at (1, 1). -/
def exGrid : ℤ → ℤ → ℕ := fun y x => if x = 1 ∧ y = 1 then PLAYER_1 else EMPTY_CELL

def exState : GameState := { GameLogic_init 2 2 with grid := exGrid, filledCells := 1 }

/-- 0×0 test board (a single cell), for the board-filling move. -/
def fillState : GameState := GameLogic_init 0 0

/-- 3×3 test board for the capture probe: PLAYER_1 at (1,1), the empty cell
(1,2) inside its group, and PLAYER_2 on the full boundary of that group. -/
def probeGrid : ℤ → ℤ → ℕ := fun y x =>
  if x = 1 ∧ y = 1 then PLAYER_1
  else if (x = 1 ∧ y = 0) ∨ (x = 0 ∧ y = 1) ∨ (x = 2 ∧ y = 1) ∨ (x = 0 ∧ y = 2) ∨
      (x = 2 ∧ y = 2) ∨ (x = 1 ∧ y = 3) then PLAYER_2
  else EMPTY_CELL

def probeState : GameState :=
  { GameLogic_init 3 3 with grid := probeGrid, currentPlayer := PLAYER_2, filledCells := 7 }

/-- 3×3 test board for the smart AI: PLAYER_1 at (1,1) surrounded by
PLAYER_2 on three sides, the fourth side (1,0) empty; placing PLAYER_2 at
(1,0) would enclose the group, but no group is enclosed beforehand. -/
def aiGrid : ℤ → ℤ → ℕ := fun y x =>
  if x = 1 ∧ y = 1 then PLAYER_1
  else if (x = 0 ∧ y = 1) ∨ (x = 2 ∧ y = 1) ∨ (x = 1 ∧ y = 2) then PLAYER_2
  else EMPTY_CELL

def aiState : GameState :=
  { GameLogic_init 3 3 with grid := aiGrid, currentPlayer := PLAYER_2, filledCells := 4 }

/-- The 5×5 board of the specification scenario: PlayerA marks at (1,1),
(1,2), (2,1) on an otherwise empty board, PlayerB to move. -/
def spec8Grid : ℤ → ℤ → ℕ := fun y x =>
  if (x = 1 ∧ y = 1) ∨ (x = 1 ∧ y = 2) ∨ (x = 2 ∧ y = 1) then PLAYER_1 else EMPTY_CELL

def spec8State : GameState :=
  { GameLogic_init 5 5 with grid := spec8Grid, currentPlayer := PLAYER_2, filledCells := 3 }

/-- 5×5 test board: the PLAYER_1 group {(1,1),(1,2),(2,1)} with its whole
boundary except (2,2) already held by PLAYER_2. -/
def ringGrid : ℤ → ℤ → ℕ := fun y x =>
  if (x = 1 ∧ y = 1) ∨ (x = 1 ∧ y = 2) ∨ (x = 2 ∧ y = 1) then PLAYER_1
  else if (x = 1 ∧ y = 0) ∨ (x = 2 ∧ y = 0) ∨ (x = 0 ∧ y = 1) ∨ (x = 0 ∧ y = 2) ∨
      (x = 1 ∧ y = 3) ∨ (x = 3 ∧ y = 1) then PLAYER_2
  else EMPTY_CELL

def ringState : GameState :=
  { GameLogic_init 5 5 with grid := ringGrid, currentPlayer := PLAYER_2, filledCells := 9 }

/-- The leaderboard of the specification example. -/
def lbExample : List LeaderboardEntry :=
  [⟨1, "Alice", 100⟩, ⟨2, "Bob", 80⟩, ⟨3, "Charlie", 50⟩]

/-! ### Facts about one neighbor visit -/

section BfsLemmas

variable (w h : ℕ) (grid : ℤ → ℤ → ℕ) (player : ℕ) (c : Cell)

lemma visitDir_group (st : BfsState) (d : ℤ × ℤ) :
    (visitDir w h grid player c st d).group = st.group := by
  simp only [visitDir]
  split
  · split
    · split <;> rfl
    · rfl
  · rfl

lemma visitDir_visited_sub (st : BfsState) (d : ℤ × ℤ) :
    st.visited ⊆ (visitDir w h grid player c st d).visited := by
  simp only [visitDir]
  split
  · split
    · split
      · exact Finset.subset_insert _ _
      · exact Finset.Subset.refl _
    · exact Finset.Subset.refl _
  · exact Finset.Subset.refl _

lemma visitDir_surrounded (st : BfsState) (d : ℤ × ℤ) :
    (visitDir w h grid player c st d).surrounded =
      (st.surrounded && decide (inBounds w h (shift c d))) := by
  simp only [visitDir, shift]
  split
  · rename_i hin
    rw [decide_eq_true hin, Bool.and_true]
    split
    · split <;> rfl
    · rfl
  · rename_i hin
    rw [decide_eq_false hin, Bool.and_false]

lemma visitDir_covers (st : BfsState) (d : ℤ × ℤ)
    (hin : inBounds w h (shift c d)) (hp : passable grid player (shift c d)) :
    shift c d ∈ (visitDir w h grid player c st d).visited := by
  have hin' : inBounds w h (c.1 + d.1, c.2 + d.2) := hin
  have hp' : grid (c.2 + d.2) (c.1 + d.1) = player ∨ grid (c.2 + d.2) (c.1 + d.1) = EMPTY_CELL := hp
  simp only [visitDir, shift]
  rw [if_pos hin']
  by_cases hmem : (c.1 + d.1, c.2 + d.2) ∈ st.visited
  · rw [if_neg (not_not.mpr hmem)]
    exact hmem
  · rw [if_pos hmem, if_pos hp']
    exact Finset.mem_insert_self _ _

lemma visitDir_visited_new (st : BfsState) (d : ℤ × ℤ) :
    ∀ v ∈ (visitDir w h grid player c st d).visited,
      v ∈ st.visited ∨
        (v = shift c d ∧ inBounds w h v ∧ passable grid player v) := by
  intro v hv
  simp only [visitDir, shift] at hv ⊢
  split at hv
  · rename_i hin
    split at hv
    · split at hv
      · rename_i hp
        rcases Finset.mem_insert.mp hv with h1 | h1
        · exact Or.inr ⟨h1, h1 ▸ hin, h1 ▸ hp⟩
        · exact Or.inl h1
      · exact Or.inl hv
    · exact Or.inl hv
  · exact Or.inl hv

lemma visitDir_vis_eq (st : BfsState) (d : ℤ × ℤ)
    (he : st.visited = st.group.toFinset ∪ st.queue.toFinset) :
    (visitDir w h grid player c st d).visited =
      (visitDir w h grid player c st d).group.toFinset ∪
        (visitDir w h grid player c st d).queue.toFinset := by
  simp only [visitDir]
  split
  · split
    · split
      · simp only [List.toFinset_append, List.toFinset_cons, List.toFinset_nil]
        rw [he]
        ext v
        simp only [Finset.mem_insert, Finset.mem_union, List.mem_toFinset,
          insert_emptyc_eq, Finset.mem_singleton]
        tauto
      · exact he
    · exact he
  · exact he

lemma visitDir_measure (st : BfsState) (d : ℤ × ℤ)
    (hsub : st.visited ⊆ allCells w h) :
    (visitDir w h grid player c st d).visited ⊆ allCells w h ∧
      (visitDir w h grid player c st d).queue.length +
          ((allCells w h).card - (visitDir w h grid player c st d).visited.card) ≤
        st.queue.length + ((allCells w h).card - st.visited.card) := by
  simp only [visitDir]
  split
  · rename_i hin
    split
    · rename_i hmem
      split
      · constructor
        · intro v hv
          rcases Finset.mem_insert.mp hv with h1 | h1
          · exact h1 ▸ mem_allCells.mpr hin
          · exact hsub h1
        · have hcardlt : st.visited.card < (allCells w h).card := by
            apply Finset.card_lt_card
            refine (Finset.ssubset_iff_of_subset hsub).mpr ?_
            exact ⟨_, mem_allCells.mpr hin, hmem⟩
          dsimp only
          rw [Finset.card_insert_of_not_mem hmem, List.length_append,
            List.length_singleton]
          omega
      · exact ⟨hsub, le_refl _⟩
    · exact ⟨hsub, le_refl _⟩
  · exact ⟨hsub, le_refl _⟩

/-! ### Facts about the whole neighbor scan (a fold over a direction list) -/

lemma foldl_visitDir_group (dirs : List (ℤ × ℤ)) (st : BfsState) :
    (dirs.foldl (visitDir w h grid player c) st).group = st.group := by
  induction dirs generalizing st with
  | nil => rfl
  | cons d ds ih => rw [List.foldl_cons, ih, visitDir_group]

lemma foldl_visitDir_visited_sub (dirs : List (ℤ × ℤ)) (st : BfsState) :
    st.visited ⊆ (dirs.foldl (visitDir w h grid player c) st).visited := by
  induction dirs generalizing st with
  | nil => exact Finset.Subset.refl _
  | cons d ds ih =>
    rw [List.foldl_cons]
    exact (visitDir_visited_sub w h grid player c st d).trans (ih _)

lemma foldl_visitDir_surrounded (dirs : List (ℤ × ℤ)) (st : BfsState) :
    (dirs.foldl (visitDir w h grid player c) st).surrounded =
      (st.surrounded && dirs.all fun d => decide (inBounds w h (shift c d))) := by
  induction dirs generalizing st with
  | nil => simp
  | cons d ds ih =>
    rw [List.foldl_cons, ih, visitDir_surrounded, List.all_cons, Bool.and_assoc]

lemma foldl_visitDir_covers (dirs : List (ℤ × ℤ)) (st : BfsState) :
    ∀ d ∈ dirs, inBounds w h (shift c d) → passable grid player (shift c d) →
      shift c d ∈ (dirs.foldl (visitDir w h grid player c) st).visited := by
  induction dirs generalizing st with
  | nil => intro d hd; exact absurd hd (List.not_mem_nil d)
  | cons d0 ds ih =>
    intro d hd hin hp
    rw [List.foldl_cons]
    rcases List.mem_cons.mp hd with rfl | hd
    · exact foldl_visitDir_visited_sub w h grid player c ds _
        (visitDir_covers w h grid player c st d hin hp)
    · exact ih _ d hd hin hp

lemma foldl_visitDir_visited_new (dirs : List (ℤ × ℤ)) (st : BfsState) :
    ∀ v ∈ (dirs.foldl (visitDir w h grid player c) st).visited,
      v ∈ st.visited ∨
        ∃ d ∈ dirs, v = shift c d ∧ inBounds w h v ∧ passable grid player v := by
  induction dirs generalizing st with
  | nil => intro v hv; exact Or.inl hv
  | cons d0 ds ih =>
    intro v hv
    rw [List.foldl_cons] at hv
    rcases ih _ v hv with hv1 | ⟨d, hd, hrest⟩
    · rcases visitDir_visited_new w h grid player c st d0 v hv1 with hv2 | hv2
      · exact Or.inl hv2
      · exact Or.inr ⟨d0, List.mem_cons_self _ _, hv2⟩
    · exact Or.inr ⟨d, List.mem_cons_of_mem _ hd, hrest⟩

lemma foldl_visitDir_vis_eq (dirs : List (ℤ × ℤ)) (st : BfsState)
    (he : st.visited = st.group.toFinset ∪ st.queue.toFinset) :
    (dirs.foldl (visitDir w h grid player c) st).visited =
      (dirs.foldl (visitDir w h grid player c) st).group.toFinset ∪
        (dirs.foldl (visitDir w h grid player c) st).queue.toFinset := by
  induction dirs generalizing st with
  | nil => exact he
  | cons d ds ih =>
    rw [List.foldl_cons]
    exact ih _ (visitDir_vis_eq w h grid player c st d he)

lemma foldl_visitDir_measure (dirs : List (ℤ × ℤ)) (st : BfsState)
    (hsub : st.visited ⊆ allCells w h) :
    (dirs.foldl (visitDir w h grid player c) st).visited ⊆ allCells w h ∧
      (dirs.foldl (visitDir w h grid player c) st).queue.length +
          ((allCells w h).card - (dirs.foldl (visitDir w h grid player c) st).visited.card) ≤
        st.queue.length + ((allCells w h).card - st.visited.card) := by
  induction dirs generalizing st with
  | nil => exact ⟨hsub, le_refl _⟩
  | cons d ds ih =>
    rw [List.foldl_cons]
    obtain ⟨h1, h2⟩ := visitDir_measure w h grid player c st d hsub
    obtain ⟨h3, h4⟩ := ih _ h1
    exact ⟨h3, h4.trans h2⟩

/-! ### The loop invariant of the BFS -/

lemma bfsInv_init (seed : Cell) (hseed : inBounds w h seed) :
    BfsInv w h grid player seed ⟨[seed], {seed}, [], true⟩ where
  vis_eq := by simp
  vis_inB := by intro v hv; rw [Finset.mem_singleton] at hv; exact hv ▸ hseed
  vis_reach := by
    intro v hv; rw [Finset.mem_singleton] at hv
    exact hv ▸ Relation.ReflTransGen.refl
  closed := by intro g hg; exact absurd hg (List.not_mem_nil g)
  surr_iff := by simp

lemma bfsInv_step {seed : Cell} {st : BfsState} {c : Cell} {rest : List Cell}
    (hInv : BfsInv w h grid player seed st) (hq : st.queue = c :: rest) :
    BfsInv w h grid player seed
      (bfsStep w h grid player c { st with queue := rest, group := st.group ++ [c] }) := by
  have hc_vis : c ∈ st.visited := by
    rw [hInv.vis_eq, hq]
    simp
  set st1 : BfsState := { st with queue := rest, group := st.group ++ [c] } with hst1
  have hst1_vis : st1.visited = st.visited := rfl
  have hst1_eq : st1.visited = st1.group.toFinset ∪ st1.queue.toFinset := by
    rw [hst1_vis, hInv.vis_eq, hq]
    ext v
    simp only [List.toFinset_cons, List.toFinset_append, List.toFinset_cons,
      List.toFinset_nil, Finset.mem_union, Finset.mem_insert, List.mem_toFinset,
      insert_emptyc_eq, Finset.mem_singleton]
    tauto
  refine ⟨foldl_visitDir_vis_eq w h grid player c _ st1 hst1_eq, ?_, ?_, ?_, ?_⟩
  · intro v hv
    rcases foldl_visitDir_visited_new w h grid player c _ st1 v hv with hv1 | ⟨d, _, rfl, hin, _⟩
    · exact hInv.vis_inB v hv1
    · exact hin
  · intro v hv
    rcases foldl_visitDir_visited_new w h grid player c _ st1 v hv with hv1 | ⟨d, hd, rfl, hin, hp⟩
    · exact hInv.vis_reach v hv1
    · exact (hInv.vis_reach c hc_vis).tail ⟨⟨d, hd, rfl⟩, hin, hp⟩
  · intro g hg v hstep
    rw [bfsStep, foldl_visitDir_group] at hg
    have hg' : g ∈ st.group ++ [c] := hg
    rcases List.mem_append.mp hg' with hg1 | hg1
    · exact foldl_visitDir_visited_sub w h grid player c _ st1
        (hInv.closed g hg1 v hstep)
    · have hgc : g = c := by simpa using hg1
      subst hgc
      obtain ⟨⟨d, hd, rfl⟩, hin, hp⟩ := hstep
      exact foldl_visitDir_covers w h grid player g _ st1 d hd hin hp
  · rw [bfsStep, foldl_visitDir_surrounded, foldl_visitDir_group]
    have hsurr1 : st1.surrounded = st.surrounded := rfl
    have hgrp1 : st1.group = st.group ++ [c] := rfl
    rw [hsurr1, hgrp1, Bool.and_eq_true, hInv.surr_iff, List.all_eq_true]
    constructor
    · rintro ⟨hold, hnew⟩ g hg d hd
      rcases List.mem_append.mp hg with hg1 | hg1
      · exact hold g hg1 d hd
      · have hgc : g = c := by simpa using hg1
        subst hgc
        exact of_decide_eq_true (hnew d hd)
    · intro hall
      refine ⟨fun g hg d hd => hall g (List.mem_append_left _ hg) d hd, ?_⟩
      intro d hd
      exact decide_eq_true (hall c (List.mem_append_right _ (List.mem_singleton_self c)) d hd)

/-! ### Running the loop -/

lemma bfsRun_succ_nil (fuel : ℕ) (st : BfsState) (hq : st.queue = []) :
    bfsRun w h grid player (fuel + 1) st = st := by
  rw [bfsRun, hq]

lemma bfsRun_succ_cons (fuel : ℕ) (st : BfsState) (c : Cell) (rest : List Cell)
    (hq : st.queue = c :: rest) :
    bfsRun w h grid player (fuel + 1) st =
      bfsRun w h grid player fuel
        (bfsStep w h grid player c { st with queue := rest, group := st.group ++ [c] }) := by
  rw [bfsRun, hq]

lemma bfsRun_inv {seed : Cell} (fuel : ℕ) (st : BfsState)
    (hInv : BfsInv w h grid player seed st) :
    BfsInv w h grid player seed (bfsRun w h grid player fuel st) := by
  induction fuel generalizing st with
  | zero => exact hInv
  | succ n ih =>
    cases hq : st.queue with
    | nil => rw [bfsRun_succ_nil w h grid player n st hq]; exact hInv
    | cons c rest =>
      rw [bfsRun_succ_cons w h grid player n st c rest hq]
      exact ih _ (bfsInv_step w h grid player hInv hq)

lemma bfsRun_visited_sub (fuel : ℕ) (st : BfsState) :
    st.visited ⊆ (bfsRun w h grid player fuel st).visited := by
  induction fuel generalizing st with
  | zero => exact Finset.Subset.refl _
  | succ n ih =>
    cases hq : st.queue with
    | nil => rw [bfsRun_succ_nil w h grid player n st hq]
    | cons c rest =>
      rw [bfsRun_succ_cons w h grid player n st c rest hq, bfsStep]
      exact (foldl_visitDir_visited_sub w h grid player c FOUR_DIRECTIONS
        { st with queue := rest, group := st.group ++ [c] }).trans (ih _)

/-- The drain lemma: fuel at least `queue.length + (|allCells| - |visited|)`
empties the queue, so the chosen fuel `(w+1)*(h+1)+1` makes the fueled loop
agree with Python's unbounded `while queue:`. -/
lemma bfsRun_queue_empty (fuel : ℕ) (st : BfsState)
    (hsub : st.visited ⊆ allCells w h)
    (hfuel : st.queue.length + ((allCells w h).card - st.visited.card) ≤ fuel) :
    (bfsRun w h grid player fuel st).queue = [] := by
  induction fuel generalizing st with
  | zero =>
    have : st.queue.length = 0 := by omega
    exact List.length_eq_zero.mp this
  | succ n ih =>
    cases hq : st.queue with
    | nil => rw [bfsRun_succ_nil w h grid player n st hq]; exact hq
    | cons c rest =>
      rw [bfsRun_succ_cons w h grid player n st c rest hq, bfsStep]
      set st1 : BfsState := { st with queue := rest, group := st.group ++ [c] } with hst1
      have hsub1 : st1.visited ⊆ allCells w h := hsub
      obtain ⟨h1, h2⟩ := foldl_visitDir_measure w h grid player c FOUR_DIRECTIONS st1 hsub1
      refine ih _ h1 ?_
      have hlen : st.queue.length = rest.length + 1 := by rw [hq]; rfl
      have hm1 : st1.queue.length = rest.length := rfl
      have hv1 : st1.visited.card = st.visited.card := rfl
      rw [hm1, hv1] at h2
      omega

end BfsLemmas

lemma card_allCells (w h : ℕ) : (allCells w h).card = (w + 1) * (h + 1) := by
  rw [allCells, Finset.card_product, Int.card_Icc, Int.card_Icc]
  have h1 : ((w : ℤ) + 1 - 0).toNat = w + 1 := by omega
  have h2 : ((h : ℤ) + 1 - 0).toNat = h + 1 := by omega
  rw [h1, h2]

lemma boundary_ok_eq_true (w h : ℕ) (grid : ℤ → ℤ → ℕ) (opponent : ℕ)
    (group : List Cell) (c : Cell) (d : ℤ × ℤ) :
    boundary_ok w h grid opponent group c d = true ↔
      (inBounds w h (shift c d) →
        shift c d ∈ group ∨ grid (shift c d).2 (shift c d).1 = opponent) := by
  simp only [boundary_ok, shift]
  split
  · rename_i hin
    simp only [Bool.or_eq_true, decide_eq_true_eq]
    exact ⟨fun hor _ => hor, fun f => f hin⟩
  · rename_i hin
    simp only [true_iff]
    intro hin'
    exact absurd hin' hin

/-- Full characterization of `_get_group_with_status` over the fields it
reads: the returned group is, as a set, the cells reachable from the seed
through empty/target-owner cells, and `is_surrounded` is true iff no group
cell has an out-of-bounds neighbor and every in-bounds non-member neighbor
of a group cell holds the opponent's mark. -/
theorem groupWithStatus_spec (w h : ℕ) (grid : ℤ → ℤ → ℕ) (player : ℕ) (x y : ℤ)
    (hseed : inBounds w h (x, y)) :
    (∀ c : Cell, c ∈ (groupWithStatus w h grid x y player).1 ↔
      Reaches w h grid player (x, y) c) ∧
    ((groupWithStatus w h grid x y player).2 = true ↔
      ((∀ c ∈ (groupWithStatus w h grid x y player).1, ∀ d ∈ FOUR_DIRECTIONS,
          inBounds w h (shift c d)) ∧
       (∀ c ∈ (groupWithStatus w h grid x y player).1, ∀ d ∈ FOUR_DIRECTIONS,
          inBounds w h (shift c d) → shift c d ∉ (groupWithStatus w h grid x y player).1 →
            grid (shift c d).2 (shift c d).1 = opponent_of player))) := by
  set st0 : BfsState := ⟨[(x, y)], {(x, y)}, [], true⟩ with hst0
  set stF := bfsRun w h grid player ((w + 1) * (h + 1) + 1) st0 with hstF
  have hInv : BfsInv w h grid player (x, y) stF :=
    bfsRun_inv w h grid player _ st0 (bfsInv_init w h grid player (x, y) hseed)
  have hsub0 : st0.visited ⊆ allCells w h := by
    intro v hv
    have : v = (x, y) := by simpa using hv
    exact mem_allCells.mpr (this ▸ hseed)
  have hqF : stF.queue = [] := by
    refine bfsRun_queue_empty w h grid player _ st0 hsub0 ?_
    have hc0 : st0.queue.length = 1 := rfl
    have hv0 : st0.visited.card = 1 := rfl
    rw [hc0, hv0, card_allCells]
    omega
  have hvisF : stF.visited = stF.group.toFinset := by
    rw [hInv.vis_eq, hqF]
    simp
  have hmem : ∀ c : Cell, c ∈ stF.group ↔ Reaches w h grid player (x, y) c := by
    intro c
    constructor
    · intro hc
      exact hInv.vis_reach c (by rw [hvisF]; exact List.mem_toFinset.mpr hc)
    · intro hr
      have : c ∈ stF.visited := by
        induction hr with
        | refl =>
          exact bfsRun_visited_sub w h grid player _ st0 (Finset.mem_singleton_self _)
        | tail hab hbc ih =>
          rename_i b c'
          have hb_grp : b ∈ stF.group := by
            rw [hvisF] at ih
            exact List.mem_toFinset.mp ih
          exact hInv.closed b hb_grp c' hbc
      rw [hvisF] at this
      exact List.mem_toFinset.mp this
  have hgrp_eq : (groupWithStatus w h grid x y player).1 = stF.group := rfl
  have hsurr_eq : (groupWithStatus w h grid x y player).2 =
      (stF.surrounded && stF.group.all fun c =>
        FOUR_DIRECTIONS.all (boundary_ok w h grid (opponent_of player) stF.group c)) := rfl
  constructor
  · intro c
    rw [hgrp_eq]
    exact hmem c
  · rw [hsurr_eq, Bool.and_eq_true, hInv.surr_iff, hgrp_eq]
    constructor
    · rintro ⟨hflag, hscan⟩
      refine ⟨hflag, ?_⟩
      intro c hc d hd hin hnm
      rw [List.all_eq_true] at hscan
      have := hscan c hc
      rw [List.all_eq_true] at this
      have hok := (boundary_ok_eq_true w h grid (opponent_of player) stF.group c d).mp
        (this d hd) hin
      tauto
    · rintro ⟨hflag, hbnd⟩
      refine ⟨hflag, ?_⟩
      rw [List.all_eq_true]
      intro c hc
      rw [List.all_eq_true]
      intro d hd
      rw [boundary_ok_eq_true]
      intro hin
      by_cases hmem2 : shift c d ∈ stF.group
      · exact Or.inl hmem2
      · exact Or.inr (hbnd c hc d hd hin hmem2)

/-! ## State threading through the capture pipeline -/

lemma CoreEq.refl (s : GameState) : CoreEq s s := ⟨rfl, rfl, rfl, rfl, rfl, rfl⟩

lemma CoreEq.trans {s t u : GameState} (h1 : CoreEq s t) (h2 : CoreEq t u) : CoreEq s u := by
  obtain ⟨a1, a2, a3, a4, a5, a6⟩ := h1
  obtain ⟨b1, b2, b3, b4, b5, b6⟩ := h2
  exact ⟨a1.trans b1, a2.trans b2, a3.trans b3, a4.trans b4, a5.trans b5, a6.trans b6⟩

lemma check_neighbors_step_spec (x y : ℤ) (st : GameState) (d : ℤ × ℤ) :
    CoreEq (check_neighbors_step x y st d) st ∧
      (check_neighbors_step x y st d).scores = st.scores ∧
      (check_neighbors_step x y st d).lastCaptured = st.lastCaptured := by
  simp only [check_neighbors_step]
  repeat' split
  all_goals exact ⟨⟨rfl, rfl, rfl, rfl, rfl, rfl⟩, rfl, rfl⟩

lemma check_neighbors_spec (s : GameState) (x y : ℤ) :
    CoreEq (check_neighbors s x y) s ∧ (check_neighbors s x y).scores = s.scores ∧
      (check_neighbors s x y).lastCaptured = s.lastCaptured := by
  unfold check_neighbors
  generalize EIGHT_DIRECTIONS = dirs
  induction dirs generalizing s with
  | nil => exact ⟨CoreEq.refl s, rfl, rfl⟩
  | cons d ds ih =>
    rw [List.foldl_cons]
    obtain ⟨h1, h2, h3⟩ := ih (check_neighbors_step x y s d)
    obtain ⟨g1, g2, g3⟩ := check_neighbors_step_spec x y s d
    exact ⟨h1.trans g1, h2.trans g2, h3.trans g3⟩

lemma check_captures_step_spec (s : GameState) (x y : ℤ) (acc : ℕ) (d : ℤ × ℤ) :
    check_captures_step s (opponent_of s.currentPlayer) x y acc d =
      acc + captureContribution s.gridWidth s.gridHeight s.grid s.currentPlayer x y d := by
  simp only [check_captures_step, captureContribution, get_group_with_status]
  repeat' split
  all_goals omega

lemma check_captures_spec (s : GameState) (x y : ℤ) :
    (check_captures s x y).1 = captureSum s.gridWidth s.gridHeight s.grid s.currentPlayer x y ∧
      (check_captures s x y).2 =
        { s with lastCaptured := captureSum s.gridWidth s.gridHeight s.grid s.currentPlayer x y } := by
  have key : ∀ (dirs : List (ℤ × ℤ)) (acc : ℕ),
      dirs.foldl (check_captures_step s (opponent_of s.currentPlayer) x y) acc =
        acc + (dirs.map (captureContribution s.gridWidth s.gridHeight s.grid s.currentPlayer x y)).sum := by
    intro dirs
    induction dirs with
    | nil => intro acc; simp
    | cons d ds ih =>
      intro acc
      rw [List.foldl_cons, ih, check_captures_step_spec, List.map_cons, List.sum_cons]
      omega
  constructor
  · simp only [check_captures]
    rw [key FOUR_DIRECTIONS 0, Nat.zero_add]
    rfl
  · simp only [check_captures]
    rw [key FOUR_DIRECTIONS 0, Nat.zero_add]
    rfl

lemma handle_captures_spec (s : GameState) (x y : ℤ) :
    CoreEq (handle_captures s x y) s ∧ (handle_captures s x y).lines = s.lines ∧
      (handle_captures s x y).lastCaptured =
        captureSum s.gridWidth s.gridHeight s.grid s.currentPlayer x y ∧
      ∀ q, (handle_captures s x y).scores q = s.scores q +
        (if q = s.currentPlayer then captureSum s.gridWidth s.gridHeight s.grid s.currentPlayer x y else 0) := by
  obtain ⟨hfst, hsnd⟩ := check_captures_spec s x y
  simp only [handle_captures]
  rw [hfst, hsnd]
  split
  · refine ⟨⟨rfl, rfl, rfl, rfl, rfl, rfl⟩, rfl, rfl, ?_⟩
    intro q
    unfold setScore
    by_cases hq : q = s.currentPlayer <;> simp [hq]
  · rename_i hzero
    refine ⟨⟨rfl, rfl, rfl, rfl, rfl, rfl⟩, rfl, rfl, ?_⟩
    intro q
    have : captureSum s.gridWidth s.gridHeight s.grid s.currentPlayer x y = 0 := by omega
    simp [this]

lemma check_self_capture_step_spec (x y : ℤ) (st : GameState) (d : ℤ × ℤ) :
    CoreEq (check_self_capture_step x y st d) st ∧
      (check_self_capture_step x y st d).lines = st.lines ∧
      (check_self_capture_step x y st d).lastCaptured = st.lastCaptured ∧
      ∀ q, (check_self_capture_step x y st d).scores q = st.scores q +
        (if q = opponent_of st.currentPlayer then
          selfCaptureContribution st.gridWidth st.gridHeight st.grid st.currentPlayer x y d else 0) := by
  simp only [check_self_capture_step, selfCaptureContribution, get_group_with_status]
  repeat' split
  all_goals refine ⟨⟨rfl, rfl, rfl, rfl, rfl, rfl⟩, rfl, rfl, ?_⟩
  all_goals intro q
  all_goals first
    | rw [ite_self, Nat.add_zero]
    | (unfold setScore
       by_cases hq : q = opponent_of st.currentPlayer <;> simp [hq])
    | (rename_i hcnt
       by_cases hq : q = opponent_of st.currentPlayer <;> simp [hq] <;> omega)

lemma check_self_capture_spec (s : GameState) (x y : ℤ) :
    CoreEq (check_self_capture s x y) s ∧ (check_self_capture s x y).lines = s.lines ∧
      (check_self_capture s x y).lastCaptured = s.lastCaptured ∧
      ∀ q, (check_self_capture s x y).scores q = s.scores q +
        (if q = opponent_of s.currentPlayer then
          selfCaptureSum s.gridWidth s.gridHeight s.grid s.currentPlayer x y else 0) := by
  unfold check_self_capture selfCaptureSum
  generalize FOUR_DIRECTIONS = dirs
  induction dirs generalizing s with
  | nil =>
    refine ⟨CoreEq.refl s, rfl, rfl, ?_⟩
    intro q
    simp
  | cons d ds ih =>
    rw [List.foldl_cons]
    obtain ⟨g1, g2, g3, g4⟩ := check_self_capture_step_spec x y s d
    have g1c := g1
    obtain ⟨gw, gh, gg, gc, gf, gt⟩ := g1c
    obtain ⟨h1, h2, h3, h4⟩ := ih (check_self_capture_step x y s d)
    refine ⟨h1.trans g1, h2.trans g2, h3.trans g3, ?_⟩
    intro q
    rw [h4 q, g4 q, gw, gh, gg, gc, List.map_cons, List.sum_cons]
    by_cases hq : q = opponent_of s.currentPlayer <;> simp [hq] <;> omega

/-! ## Claim theorems -/

/-- C1: for every board state, in-bounds seed and target owner,
`_get_group_with_status` returns exactly the cells reachable from the seed
by 4-directional steps through `Empty` / `Owner(targetOwner)` cells, and
`enclosed` is true iff (a) no group cell has an out-of-bounds 4-neighbor
and (b) every in-bounds 4-neighbor of a group cell that is not itself in
the group holds `Owner(opponent)`. -/
theorem claim_C1_group_analyzer (s : GameState) (x y : ℤ) (player : ℕ)
    (hseed : inBounds s.gridWidth s.gridHeight (x, y)) :
    (∀ c : Cell, c ∈ (get_group_with_status s x y player).1 ↔
      Reaches s.gridWidth s.gridHeight s.grid player (x, y) c) ∧
    ((get_group_with_status s x y player).2 = true ↔
      ((∀ c ∈ (get_group_with_status s x y player).1, ∀ d ∈ FOUR_DIRECTIONS,
          inBounds s.gridWidth s.gridHeight (shift c d)) ∧
       (∀ c ∈ (get_group_with_status s x y player).1, ∀ d ∈ FOUR_DIRECTIONS,
          inBounds s.gridWidth s.gridHeight (shift c d) →
            shift c d ∉ (get_group_with_status s x y player).1 →
              s.grid (shift c d).2 (shift c d).1 = opponent_of player))) :=
  groupWithStatus_spec s.gridWidth s.gridHeight s.grid player x y hseed

theorem claim_C1_group_analyzer_witness :
    inBounds exState.gridWidth exState.gridHeight ((1 : ℤ), (1 : ℤ)) ∧
      (((1 : ℤ), (1 : ℤ)) ∈ (get_group_with_status exState 1 1 PLAYER_1).1 ↔
        Reaches exState.gridWidth exState.gridHeight exState.grid PLAYER_1 (1, 1) (1, 1)) :=
  ⟨by decide, (claim_C1_group_analyzer exState 1 1 PLAYER_1 (by decide)).1 (1, 1)⟩

/-- C4: a seed cell on the board edge or corner is never the seed of an
enclosed group, for any target owner. -/
theorem claim_C4_edge_seed_never_enclosed (s : GameState) (x y : ℤ) (player : ℕ)
    (hseed : inBounds s.gridWidth s.gridHeight (x, y))
    (hedge : x = 0 ∨ x = (s.gridWidth : ℤ) ∨ y = 0 ∨ y = (s.gridHeight : ℤ)) :
    (get_group_with_status s x y player).2 = false := by
  by_contra hne
  have htrue : (get_group_with_status s x y player).2 = true := by
    cases hb : (get_group_with_status s x y player).2
    · exact absurd hb hne
    · rfl
  obtain ⟨hmem, hiff⟩ := groupWithStatus_spec s.gridWidth s.gridHeight s.grid player x y hseed
  obtain ⟨hA, _⟩ := hiff.mp htrue
  have hseed_mem : (x, y) ∈ (get_group_with_status s x y player).1 :=
    (hmem (x, y)).mpr Relation.ReflTransGen.refl
  rcases hedge with he | he | he | he
  · have hb := hA (x, y) hseed_mem (-1, 0) (by decide)
    obtain ⟨h1, h2, h3, h4⟩ := hb
    simp only [shift] at h1
    omega
  · have hb := hA (x, y) hseed_mem (1, 0) (by decide)
    obtain ⟨h1, h2, h3, h4⟩ := hb
    simp only [shift] at h2
    omega
  · have hb := hA (x, y) hseed_mem (0, -1) (by decide)
    obtain ⟨h1, h2, h3, h4⟩ := hb
    simp only [shift] at h3
    omega
  · have hb := hA (x, y) hseed_mem (0, 1) (by decide)
    obtain ⟨h1, h2, h3, h4⟩ := hb
    simp only [shift] at h4
    omega

theorem claim_C4_edge_seed_never_enclosed_witness :
    inBounds exState.gridWidth exState.gridHeight ((0 : ℤ), (1 : ℤ)) ∧
      (get_group_with_status exState 0 1 PLAYER_1).2 = false :=
  ⟨by decide, claim_C4_edge_seed_never_enclosed exState 0 1 PLAYER_1 (by decide) (Or.inl rfl)⟩

/-- C6: `place_dot` on an out-of-bounds or occupied cell returns failure
and leaves the whole state — grid, filled counter, scores, current player,
segment list and last capture count — unchanged. -/
theorem claim_C6_invalid_move_rejected (s : GameState) (x y : ℤ)
    (hbad : ¬ inBounds s.gridWidth s.gridHeight (x, y) ∨ s.grid y x ≠ EMPTY_CELL) :
    place_dot s x y = (false, s) ∧
      (place_dot s x y).2.grid = s.grid ∧ (place_dot s x y).2.filledCells = s.filledCells ∧
      (place_dot s x y).2.scores = s.scores ∧
      (place_dot s x y).2.currentPlayer = s.currentPlayer ∧
      (place_dot s x y).2.lines = s.lines ∧
      (place_dot s x y).2.lastCaptured = s.lastCaptured := by
  have hv : validate_move s x y = false := by
    unfold validate_move
    by_cases hin : inBounds s.gridWidth s.gridHeight (x, y)
    · rw [if_neg (not_not.mpr hin)]
      rcases hbad with hb | hb
      · exact absurd hin hb
      · exact beq_eq_false_iff_ne.mpr hb
    · rw [if_pos hin]
  have hfail : place_dot s x y = (false, s) := by
    unfold place_dot
    rw [hv]
    simp
  rw [hfail]
  exact ⟨rfl, rfl, rfl, rfl, rfl, rfl, rfl⟩

theorem claim_C6_invalid_move_rejected_witness :
    (¬ inBounds exState.gridWidth exState.gridHeight ((1 : ℤ), (1 : ℤ)) ∨
      exState.grid 1 1 ≠ EMPTY_CELL) ∧
      place_dot exState 1 1 = (false, exState) :=
  ⟨Or.inr (by decide), (claim_C6_invalid_move_rejected exState 1 1 (Or.inr (by decide))).1⟩

/-- C3: a valid placement that makes `filledCells` reach `totalCells` ends
the game at once and skips capture evaluation — the scores and the last
capture count are untouched — and `_is_board_full` is true exactly when
`filledCells = totalCells` on any state with `filledCells ≤ totalCells`. -/
theorem claim_C3_filling_move_skips_captures (s : GameState) (x y : ℤ)
    (hv : validate_move s x y = true) (hfill : s.filledCells + 1 = s.totalCells) :
    place_dot s x y = (true, execute_move s x y) ∧
      (place_dot s x y).2.scores = s.scores ∧
      (place_dot s x y).2.lastCaptured = s.lastCaptured ∧
      (∀ t : GameState, t.filledCells ≤ t.totalCells →
        (is_board_full t = true ↔ t.filledCells = t.totalCells)) := by
  have hfull : is_board_full (execute_move s x y) = true := by
    simp only [is_board_full, execute_move, decide_eq_true_eq]
    omega
  have hp : place_dot s x y = (true, execute_move s x y) := by
    simp [place_dot, hv, hfull]
  refine ⟨hp, by rw [hp]; rfl, by rw [hp]; rfl, ?_⟩
  intro t ht
  simp only [is_board_full, decide_eq_true_eq]
  omega

theorem claim_C3_filling_move_skips_captures_witness :
    validate_move fillState 0 0 = true ∧
      fillState.filledCells + 1 = fillState.totalCells ∧
      place_dot fillState 0 0 = (true, execute_move fillState 0 0) :=
  ⟨by decide, by decide,
    (claim_C3_filling_move_skips_captures fillState 0 0 (by decide) (by decide)).1⟩

/-- C2: after a successful non-filling placement, the mover's score grows
by the per-direction opponent-capture sum and then the opponent's score
grows by the per-direction self-capture sum, both evaluated on the
post-placement board (a group reached from two directions counts twice —
no shared visited set across the four seed calls). -/
theorem claim_C2_capture_scoring (s : GameState) (x y : ℤ)
    (hv : validate_move s x y = true)
    (hmover : s.currentPlayer = PLAYER_1 ∨ s.currentPlayer = PLAYER_2)
    (hnotfull : is_board_full (execute_move s x y) = false) :
    (place_dot s x y).2.scores s.currentPlayer =
      s.scores s.currentPlayer +
        captureSum s.gridWidth s.gridHeight (execute_move s x y).grid s.currentPlayer x y ∧
    (place_dot s x y).2.scores (opponent_of s.currentPlayer) =
      s.scores (opponent_of s.currentPlayer) +
        selfCaptureSum s.gridWidth s.gridHeight (execute_move s x y).grid s.currentPlayer x y := by
  have hne : opponent_of s.currentPlayer ≠ s.currentPlayer := by
    rcases hmover with hcp | hcp <;> rw [hcp] <;> decide
  obtain ⟨cn_core, cn_scores, cn_last⟩ := check_neighbors_spec (execute_move s x y) x y
  obtain ⟨cnw, cnh, cng, cnc, cnf, cnt⟩ := cn_core
  obtain ⟨hc_core, hc_lines, hc_last, hc_scores⟩ :=
    handle_captures_spec (check_neighbors (execute_move s x y) x y) x y
  obtain ⟨hcw, hch, hcg, hcc, hcf, hct⟩ := hc_core
  obtain ⟨sc_core, sc_lines, sc_last, sc_scores⟩ :=
    check_self_capture_spec (handle_captures (check_neighbors (execute_move s x y) x y) x y) x y
  have hplace2 : (place_dot s x y).2 =
      check_self_capture (handle_captures (check_neighbors (execute_move s x y) x y) x y) x y := by
    simp [place_dot, hv, hnotfull]
  have ecp : (execute_move s x y).currentPlayer = s.currentPlayer := rfl
  have ew : (execute_move s x y).gridWidth = s.gridWidth := rfl
  have eh : (execute_move s x y).gridHeight = s.gridHeight := rfl
  have esc : (execute_move s x y).scores = s.scores := rfl
  constructor
  · rw [hplace2, sc_scores s.currentPlayer]
    simp only [hcw, hch, hcg, hcc, cnw, cnh, cng, cnc, ecp, ew, eh]
    rw [if_neg fun hcon => hne hcon.symm, Nat.add_zero, hc_scores]
    simp only [cnw, cnh, cng, cnc, ecp, ew, eh, cn_scores, esc]
    simp
  · rw [hplace2, sc_scores (opponent_of s.currentPlayer)]
    simp only [hcw, hch, hcg, hcc, cnw, cnh, cng, cnc, ecp, ew, eh]
    rw [hc_scores]
    simp only [cnw, cnh, cng, cnc, ecp, ew, eh, cn_scores, esc]
    simp [hne]

theorem claim_C2_capture_scoring_witness :
    validate_move ringState 2 2 = true ∧
      (ringState.currentPlayer = PLAYER_1 ∨ ringState.currentPlayer = PLAYER_2) ∧
      is_board_full (execute_move ringState 2 2) = false ∧
      (place_dot ringState 2 2).2.scores ringState.currentPlayer =
        ringState.scores ringState.currentPlayer +
          captureSum ringState.gridWidth ringState.gridHeight (execute_move ringState 2 2).grid
            ringState.currentPlayer 2 2 :=
  ⟨by decide, Or.inr (by decide), by decide,
    (claim_C2_capture_scoring ringState 2 2 (by decide) (Or.inr (by decide)) (by decide)).1⟩

/-! ## Soundness of the AI capture probe -/

lemma setCell_eq (g : ℤ → ℤ → ℕ) (x y : ℤ) (v : ℕ) : setCell g x y v y x = v := by
  simp [setCell]

lemma setCell_ne (g : ℤ → ℤ → ℕ) (x y : ℤ) (v : ℕ) {c : Cell} (hne : c ≠ (x, y)) :
    setCell g x y v c.2 c.1 = g c.2 c.1 := by
  unfold setCell
  rw [if_neg]
  intro hand
  exact hne (Prod.ext hand.2 hand.1)

lemma neg_mem_four {d : ℤ × ℤ} (hd : d ∈ FOUR_DIRECTIONS) : (-d.1, -d.2) ∈ FOUR_DIRECTIONS := by
  simp only [FOUR_DIRECTIONS, List.mem_cons, List.not_mem_nil, or_false] at hd ⊢
  rcases hd with rfl | rfl | rfl | rfl <;> decide

lemma reaches_passable {w h : ℕ} {grid : ℤ → ℤ → ℕ} {player : ℕ} {seed c : Cell}
    (hseed : passable grid player seed) (hr : Reaches w h grid player seed c) :
    passable grid player c := by
  induction hr with
  | refl => exact hseed
  | tail _ hstep _ => exact hstep.2.2

/-- C10: the smart AI's capture probe is sound: on an in-bounds empty cell
with the AI (PLAYER_2) to move, a `true` probe means some PLAYER_1
4-neighbor's group — which contains the probed empty cell — is enclosed in
the current state, and actually placing PLAYER_2's mark there and running
capture resolution captures at least one cell. -/
theorem claim_C10_probe_sound (s : GameState) (x y : ℤ)
    (hin : inBounds s.gridWidth s.gridHeight (x, y))
    (hempty : s.grid y x = EMPTY_CELL)
    (hcp : s.currentPlayer = PLAYER_2)
    (hprobe : would_capture_player s x y = true) :
    (∃ d ∈ FOUR_DIRECTIONS,
        inBounds s.gridWidth s.gridHeight (shift (x, y) d) ∧
        s.grid (shift (x, y) d).2 (shift (x, y) d).1 = PLAYER_1 ∧
        (get_group_with_status s (shift (x, y) d).1 (shift (x, y) d).2 PLAYER_1).2 = true ∧
        (x, y) ∈ (get_group_with_status s (shift (x, y) d).1 (shift (x, y) d).2 PLAYER_1).1) ∧
      1 ≤ (check_captures (execute_move s x y) x y).1 := by
  simp only [would_capture_player, List.any_eq_true, Bool.and_eq_true, decide_eq_true_eq,
    beq_iff_eq] at hprobe
  obtain ⟨d, hd, ⟨hinb, hp1⟩, hsurr⟩ := hprobe
  obtain ⟨hmemPre, hiffPre⟩ :=
    groupWithStatus_spec s.gridWidth s.gridHeight s.grid PLAYER_1 (x + d.1) (y + d.2) hinb
  obtain ⟨hApre, hBpre⟩ := hiffPre.mp hsurr
  have hstep_back :
      stepRel s.gridWidth s.gridHeight s.grid PLAYER_1 (x + d.1, y + d.2) (x, y) := by
    refine ⟨⟨(-d.1, -d.2), neg_mem_four hd, ?_⟩, hin, Or.inr hempty⟩
    simp only [shift, Prod.mk.injEq]
    omega
  have hxy_pre : (x, y) ∈ (get_group_with_status s (x + d.1) (y + d.2) PLAYER_1).1 :=
    (hmemPre (x, y)).mpr (Relation.ReflTransGen.single hstep_back)
  have hn_ne : ((x + d.1, y + d.2) : Cell) ≠ (x, y) := by
    intro he
    have h1 := congrArg Prod.fst he
    have h2 := congrArg Prod.snd he
    simp only at h1 h2
    rw [h1, h2] at hp1
    rw [hempty] at hp1
    exact absurd hp1 (by decide)
  have hgrid1 : (execute_move s x y).grid = setCell s.grid x y PLAYER_2 := by
    rw [execute_move, hcp]
  have hxyne : ∀ c : Cell, c ≠ (x, y) →
      setCell s.grid x y PLAYER_2 c.2 c.1 = s.grid c.2 c.1 :=
    fun c hc => setCell_ne s.grid x y PLAYER_2 hc
  have hpass_pre : ∀ c ∈ (get_group_with_status s (x + d.1) (y + d.2) PLAYER_1).1,
      passable s.grid PLAYER_1 c := by
    intro c hcmem
    exact reaches_passable (Or.inl hp1) ((hmemPre c).mp hcmem)
  have hmono : ∀ c : Cell,
      Reaches s.gridWidth s.gridHeight (setCell s.grid x y PLAYER_2) PLAYER_1
        (x + d.1, y + d.2) c →
      Reaches s.gridWidth s.gridHeight s.grid PLAYER_1 (x + d.1, y + d.2) c := by
    intro c hr
    refine Relation.ReflTransGen.mono ?_ hr
    rintro a b ⟨hdir, hinb2, hpass2⟩
    refine ⟨hdir, hinb2, ?_⟩
    have hbne : b ≠ (x, y) := by
      intro he
      subst he
      have hv : setCell s.grid x y PLAYER_2 (x, y).2 (x, y).1 = PLAYER_2 :=
        setCell_eq s.grid x y PLAYER_2
      unfold passable at hpass2
      rw [hv] at hpass2
      rcases hpass2 with hbad | hbad <;> exact absurd hbad (by decide)
    unfold passable at hpass2 ⊢
    rw [hxyne b hbne] at hpass2
    exact hpass2
  obtain ⟨hmemPost, hiffPost⟩ :=
    groupWithStatus_spec s.gridWidth s.gridHeight (setCell s.grid x y PLAYER_2) PLAYER_1
      (x + d.1) (y + d.2) hinb
  have hsub : ∀ c ∈ (groupWithStatus s.gridWidth s.gridHeight
      (setCell s.grid x y PLAYER_2) (x + d.1) (y + d.2) PLAYER_1).1,
      c ∈ (get_group_with_status s (x + d.1) (y + d.2) PLAYER_1).1 := by
    intro c hc
    exact (hmemPre c).mpr (hmono c ((hmemPost c).mp hc))
  have hsurr_post : (groupWithStatus s.gridWidth s.gridHeight
      (setCell s.grid x y PLAYER_2) (x + d.1) (y + d.2) PLAYER_1).2 = true := by
    refine hiffPost.mpr ⟨?_, ?_⟩
    · intro c hc dd hdd
      exact hApre c (hsub c hc) dd hdd
    · intro c hc dd hdd hin2 hnm
      by_cases hmxy : shift c dd = (x, y)
      · rw [hmxy]
        show setCell s.grid x y PLAYER_2 (x, y).2 (x, y).1 = opponent_of PLAYER_1
        rw [setCell_eq s.grid x y PLAYER_2]
        rfl
      · rw [hxyne (shift c dd) hmxy]
        by_cases hpre_m : shift c dd ∈ (get_group_with_status s (x + d.1) (y + d.2) PLAYER_1).1
        · exfalso
          apply hnm
          have hpassm : passable s.grid PLAYER_1 (shift c dd) := hpass_pre _ hpre_m
          have hpassm1 : passable (setCell s.grid x y PLAYER_2) PLAYER_1 (shift c dd) := by
            unfold passable at hpassm ⊢
            rw [hxyne _ hmxy]
            exact hpassm
          have hstep2 : stepRel s.gridWidth s.gridHeight (setCell s.grid x y PLAYER_2)
              PLAYER_1 c (shift c dd) := ⟨⟨dd, hdd, rfl⟩, hin2, hpassm1⟩
          exact (hmemPost _).mpr (((hmemPost c).mp hc).tail hstep2)
        · exact hBpre c (hsub c hc) dd hdd hin2 hpre_m
  refine ⟨⟨d, hd, hinb, hp1, hsurr, hxy_pre⟩, ?_⟩
  obtain ⟨hcfst, _⟩ := check_captures_spec (execute_move s x y) x y
  rw [hcfst]
  have e1 : (execute_move s x y).gridWidth = s.gridWidth := rfl
  have e2 : (execute_move s x y).gridHeight = s.gridHeight := rfl
  have e3 : (execute_move s x y).currentPlayer = s.currentPlayer := rfl
  rw [e1, e2, e3, hcp, hgrid1]
  have hcontrib :
      1 ≤ captureContribution s.gridWidth s.gridHeight (setCell s.grid x y PLAYER_2)
        PLAYER_2 x y d := by
    have hopp : opponent_of PLAYER_2 = PLAYER_1 := rfl
    simp only [captureContribution, hopp]
    rw [if_pos hinb]
    have hg1 : setCell s.grid x y PLAYER_2 (y + d.2) (x + d.1) = PLAYER_1 := by
      have := hxyne (x + d.1, y + d.2) hn_ne
      simp only at this
      rw [this]
      exact hp1
    rw [if_pos hg1, if_pos hsurr_post]
    unfold countOwned
    have hnmem : ((x + d.1, y + d.2) : Cell) ∈
        (groupWithStatus s.gridWidth s.gridHeight (setCell s.grid x y PLAYER_2)
          (x + d.1) (y + d.2) PLAYER_1).1 :=
      (hmemPost _).mpr Relation.ReflTransGen.refl
    have hpos : 0 < List.countP
        (fun c => decide (setCell s.grid x y PLAYER_2 c.2 c.1 = PLAYER_1))
        (groupWithStatus s.gridWidth s.gridHeight (setCell s.grid x y PLAYER_2)
          (x + d.1) (y + d.2) PLAYER_1).1 := by
      rw [List.countP_pos_iff]
      exact ⟨_, hnmem, decide_eq_true hg1⟩
    exact hpos
  unfold captureSum
  calc (1 : ℕ) ≤ captureContribution s.gridWidth s.gridHeight
        (setCell s.grid x y PLAYER_2) PLAYER_2 x y d := hcontrib
    _ ≤ (FOUR_DIRECTIONS.map (captureContribution s.gridWidth s.gridHeight
          (setCell s.grid x y PLAYER_2) PLAYER_2 x y)).sum :=
      List.single_le_sum (fun n _ => Nat.zero_le n) _ (List.mem_map_of_mem _ hd)

theorem claim_C10_probe_sound_witness :
    inBounds probeState.gridWidth probeState.gridHeight ((1 : ℤ), (2 : ℤ)) ∧
      probeState.grid 2 1 = EMPTY_CELL ∧
      probeState.currentPlayer = PLAYER_2 ∧
      would_capture_player probeState 1 2 = true ∧
      1 ≤ (check_captures (execute_move probeState 1 2) 1 2).1 :=
  ⟨by decide, by decide, by decide, by decide,
    (claim_C10_probe_sound probeState 1 2 (by decide) (by decide) (by decide) (by decide)).2⟩

/-! ## The concrete 6×6 capture scenario of the specification -/

/-- Counterexample to C8 as stated: on the width-5/height-5 board where
PlayerA holds exactly (1,1), (1,2), (2,1) and PlayerB places at (2,2), the
groups probed from PlayerB's two PlayerA neighbors are NOT enclosed (they
continue through the empty cells around the marks and reach the board
edge), and PlayerB's score increases by 0, not 3. -/
theorem claim_C8_scenario_cex :
    (get_group_with_status (execute_move spec8State 2 2) 1 2 PLAYER_1).2 = false ∧
    (get_group_with_status (execute_move spec8State 2 2) 2 1 PLAYER_1).2 = false ∧
    (place_dot spec8State 2 2).2.scores PLAYER_2 = spec8State.scores PLAYER_2 ∧
    ¬ (place_dot spec8State 2 2).2.scores PLAYER_2 = spec8State.scores PLAYER_2 + 3 := by
  refine ⟨by decide, by decide, by decide, ?_⟩
  rw [show (place_dot spec8State 2 2).2.scores PLAYER_2 = 0 from by decide]
  decide

/-- C8 as amended: in the specification's 6×6 scenario the placement at
(2,2) is accepted but captures nothing — the probed group contains the
PlayerA marks together with reachable empty cells, is not enclosed, and
both scores are unchanged (PlayerB's score increases by exactly 0). -/
theorem claim_C8_scenario_amended :
    (place_dot spec8State 2 2).1 = false ∧
    (place_dot spec8State 2 2).2.scores PLAYER_2 = spec8State.scores PLAYER_2 ∧
    (place_dot spec8State 2 2).2.scores PLAYER_1 = spec8State.scores PLAYER_1 ∧
    (place_dot spec8State 2 2).2.lastCaptured = 0 ∧
    ((1, 1) ∈ (get_group_with_status (execute_move spec8State 2 2) 1 2 PLAYER_1).1 ∧
     (1, 2) ∈ (get_group_with_status (execute_move spec8State 2 2) 1 2 PLAYER_1).1 ∧
     (2, 1) ∈ (get_group_with_status (execute_move spec8State 2 2) 1 2 PLAYER_1).1 ∧
     (0, 0) ∈ (get_group_with_status (execute_move spec8State 2 2) 1 2 PLAYER_1).1) ∧
    (get_group_with_status (execute_move spec8State 2 2) 1 2 PLAYER_1).2 = false := by
  decide

/-! ## The smart AI's capture-seeking tier -/

/-- Counterexample to C5 as stated: on `aiState` the empty cell (1,0) is a
move whose placement would render the PLAYER_1 group at (1,1) enclosed,
yet the smart AI (here with an all-false tie-break stream and no random
draws) plays (0,2), whose placement captures nothing — the probe examines
the current state only, where the group still leaks through (1,0) to the
board edge, so no capturing move is found. -/
theorem claim_C5_smart_ai_cex :
    wouldRenderEnclosed aiState 1 0 ∧
    find_capture_move aiState = none ∧
    (make_ai_move_smart aiState (fun _ => false) []).1 = some (0, 2) ∧
    ¬ wouldRenderEnclosed aiState 0 2 :=
  ⟨by decide, by decide, by decide, by decide⟩

lemma mem_scanCells {w h : ℕ} {c : Cell} : c ∈ scanCells w h ↔ inBounds w h c := by
  rcases c with ⟨a, b⟩
  unfold scanCells
  simp only [List.mem_flatMap, List.mem_map, List.mem_range]
  constructor
  · rintro ⟨yy, hyy, xx, hxx, heq⟩
    have h1 : ((xx : ℤ)) = a := congrArg Prod.fst heq
    have h2 : ((yy : ℤ)) = b := congrArg Prod.snd heq
    refine ⟨?_, ?_, ?_, ?_⟩
    · show (0 : ℤ) ≤ a
      omega
    · show a ≤ (w : ℤ)
      omega
    · show (0 : ℤ) ≤ b
      omega
    · show b ≤ (h : ℤ)
      omega
  · intro hin
    have h1 : (0 : ℤ) ≤ a := hin.1
    have h2 : a ≤ (w : ℤ) := hin.2.1
    have h3 : (0 : ℤ) ≤ b := hin.2.2.1
    have h4 : b ≤ (h : ℤ) := hin.2.2.2
    refine ⟨b.toNat, by omega, a.toNat, by omega, ?_⟩
    have ha : ((a.toNat : ℤ)) = a := by omega
    have hb : ((b.toNat : ℤ)) = b := by omega
    rw [ha, hb]

lemma scanCells_pairwise (w h : ℕ) : (scanCells w h).Pairwise RowBefore := by
  unfold scanCells
  rw [List.flatMap_def, List.pairwise_flatten]
  constructor
  · intro l hl
    rw [List.mem_map] at hl
    obtain ⟨yy, _, rfl⟩ := hl
    refine List.pairwise_map.mpr (List.Pairwise.imp ?_ (List.pairwise_lt_range _))
    intro a b hab
    exact Or.inr ⟨rfl, by omega⟩
  · refine List.pairwise_map.mpr (List.Pairwise.imp ?_ (List.pairwise_lt_range _))
    intro y1 y2 h12 cx hx cy hy
    rw [List.mem_map] at hx hy
    obtain ⟨a, _, rfl⟩ := hx
    obtain ⟨b, _, rfl⟩ := hy
    exact Or.inl (by omega)

lemma find?_split {α : Type} (p : α → Bool) (l : List α) (a : α) (h : l.find? p = some a) :
    ∃ l₁ l₂, l = l₁ ++ a :: l₂ ∧ ∀ b ∈ l₁, p b = false := by
  induction l with
  | nil => exact absurd h (by simp)
  | cons x xs ih =>
    by_cases hx : p x = true
    · rw [List.find?_cons_of_pos xs hx] at h
      obtain rfl : x = a := Option.some.inj h
      exact ⟨[], xs, rfl, fun b hb => absurd hb (List.not_mem_nil b)⟩
    · rw [List.find?_cons_of_neg xs hx] at h
      obtain ⟨l₁, l₂, rfl, hall⟩ := ih h
      refine ⟨x :: l₁, l₂, rfl, ?_⟩
      intro b hb
      rcases List.mem_cons.mp hb with rfl | hb2
      · exact Bool.eq_false_iff.mpr hx
      · exact hall b hb2

/-- C5 as amended: whenever some valid cell passes the probe
`_would_capture_player` — which examines the *current* state: it asks
whether a PLAYER_1 4-neighbor's group is enclosed right now, not whether
the placement would enclose it — `make_ai_move_smart` plays the first such
cell in row-major scan order regardless of the random sources, and the
only state change is that placement itself. -/
theorem claim_C5_smart_ai_amended (s : GameState)
    (hex : ∃ p : Cell, is_valid_move s p.1 p.2 = true ∧ would_capture_player s p.1 p.2 = true) :
    ∃ c : Cell, find_capture_move s = some c ∧ is_valid_move s c.1 c.2 = true ∧
      would_capture_player s c.1 c.2 = true ∧
      (∀ p : Cell, inBounds s.gridWidth s.gridHeight p → RowBefore p c →
        ¬ (is_valid_move s p.1 p.2 = true ∧ would_capture_player s p.1 p.2 = true)) ∧
      ∀ (coins : ℕ → Bool) (draws : List Cell),
        make_ai_move_smart s coins draws = execute_ai_move s c.1 c.2 := by
  obtain ⟨p0, hv0, hw0⟩ := hex
  have hp0mem : p0 ∈ scanCells s.gridWidth s.gridHeight := by
    rw [mem_scanCells]
    unfold is_valid_move at hv0
    by_cases hin : inBounds s.gridWidth s.gridHeight (p0.1, p0.2)
    · exact hin
    · rw [if_pos hin] at hv0
      exact absurd hv0 (by decide)
  have hfind_some : (List.find?
      (fun c => is_valid_move s c.1 c.2 && would_capture_player s c.1 c.2)
      (scanCells s.gridWidth s.gridHeight)).isSome = true := by
    rw [List.find?_isSome]
    refine ⟨p0, hp0mem, ?_⟩
    rw [Bool.and_eq_true]
    exact ⟨hv0, hw0⟩
  obtain ⟨c, hc⟩ := Option.isSome_iff_exists.mp hfind_some
  have hfind : find_capture_move s = some c := hc
  have hpc := List.find?_some hc
  rw [Bool.and_eq_true] at hpc
  obtain ⟨l₁, l₂, hsplit, hl₁⟩ := find?_split _ _ _ hc
  have hpw := scanCells_pairwise s.gridWidth s.gridHeight
  rw [hsplit, List.pairwise_append] at hpw
  obtain ⟨_, hpw2, _⟩ := hpw
  rw [List.pairwise_cons] at hpw2
  have hafter : ∀ b ∈ l₂, RowBefore c b := hpw2.1
  refine ⟨c, hfind, hpc.1, hpc.2, ?_, ?_⟩
  · intro p hpin hpbefore hpred
    have hptrue : (is_valid_move s p.1 p.2 && would_capture_player s p.1 p.2) = true := by
      rw [hpred.1, hpred.2]
      rfl
    have hpmem : p ∈ scanCells s.gridWidth s.gridHeight := mem_scanCells.mpr hpin
    rw [hsplit] at hpmem
    rcases List.mem_append.mp hpmem with h1 | h1
    · rw [hl₁ p h1] at hptrue
      exact absurd hptrue (by decide)
    · rcases List.mem_cons.mp h1 with rfl | h2
      · unfold RowBefore at hpbefore
        omega
      · have hcb := hafter p h2
        unfold RowBefore at hpbefore hcb
        omega
  · intro coins draws
    unfold make_ai_move_smart
    rw [hfind]

theorem claim_C5_smart_ai_amended_witness :
    (∃ p : Cell, is_valid_move probeState p.1 p.2 = true ∧
      would_capture_player probeState p.1 p.2 = true) ∧
    (∃ c : Cell, find_capture_move probeState = some c ∧
      is_valid_move probeState c.1 c.2 = true ∧
      would_capture_player probeState c.1 c.2 = true ∧
      (∀ p : Cell, inBounds probeState.gridWidth probeState.gridHeight p → RowBefore p c →
        ¬ (is_valid_move probeState p.1 p.2 = true ∧
          would_capture_player probeState p.1 p.2 = true)) ∧
      ∀ (coins : ℕ → Bool) (draws : List Cell),
        make_ai_move_smart probeState coins draws = execute_ai_move probeState c.1 c.2) :=
  ⟨⟨(1, 2), by decide, by decide⟩,
    claim_C5_smart_ai_amended probeState ⟨(1, 2), by decide, by decide⟩⟩

/-! ## The filled-cells invariant over reachable states -/

lemma validate_move_true_iff (s : GameState) (x y : ℤ) :
    validate_move s x y = true ↔
      inBounds s.gridWidth s.gridHeight (x, y) ∧ s.grid y x = EMPTY_CELL := by
  unfold validate_move
  by_cases hin : inBounds s.gridWidth s.gridHeight (x, y)
  · rw [if_neg (not_not.mpr hin)]
    simp [hin, beq_iff_eq]
  · rw [if_pos hin]
    simp [hin]

lemma place_dot_of_invalid (s : GameState) (x y : ℤ)
    (hv : validate_move s x y = false) : place_dot s x y = (false, s) := by
  simp [place_dot, hv]

lemma place_dot_effects (s : GameState) (x y : ℤ) (hv : validate_move s x y = true) :
    (place_dot s x y).2.grid = setCell s.grid x y s.currentPlayer ∧
    (place_dot s x y).2.filledCells = s.filledCells + 1 ∧
    (place_dot s x y).2.gridWidth = s.gridWidth ∧
    (place_dot s x y).2.gridHeight = s.gridHeight ∧
    (place_dot s x y).2.totalCells = s.totalCells ∧
    (place_dot s x y).2.currentPlayer = s.currentPlayer := by
  by_cases hfull : is_board_full (execute_move s x y) = true
  · have h1 : place_dot s x y = (true, execute_move s x y) := by
      simp [place_dot, hv, hfull]
    rw [h1]
    exact ⟨rfl, rfl, rfl, rfl, rfl, rfl⟩
  · have h1 : (place_dot s x y).2 =
        check_self_capture (handle_captures (check_neighbors (execute_move s x y) x y) x y)
          x y := by
      simp [place_dot, hv, hfull]
    obtain ⟨cn_core, _, _⟩ := check_neighbors_spec (execute_move s x y) x y
    obtain ⟨hc_core, _, _, _⟩ :=
      handle_captures_spec (check_neighbors (execute_move s x y) x y) x y
    obtain ⟨sc_core, _, _, _⟩ := check_self_capture_spec
      (handle_captures (check_neighbors (execute_move s x y) x y) x y) x y
    obtain ⟨c1, c2, c3, c4, c5, c6⟩ := (sc_core.trans hc_core).trans cn_core
    rw [h1]
    exact ⟨c3, c5, c1, c2, c6, c4⟩

lemma filledCount_setCell (w h : ℕ) (g : ℤ → ℤ → ℕ) (x y : ℤ) (v : ℕ)
    (hin : inBounds w h (x, y)) (hempty : g y x = EMPTY_CELL) (hv : v ≠ EMPTY_CELL) :
    ((allCells w h).filter fun c => setCell g x y v c.2 c.1 ≠ EMPTY_CELL).card =
      ((allCells w h).filter fun c => g c.2 c.1 ≠ EMPTY_CELL).card + 1 := by
  have hsets : ((allCells w h).filter fun c => setCell g x y v c.2 c.1 ≠ EMPTY_CELL) =
      insert ((x, y) : Cell) ((allCells w h).filter fun c => g c.2 c.1 ≠ EMPTY_CELL) := by
    ext c
    simp only [Finset.mem_filter, Finset.mem_insert, mem_allCells]
    constructor
    · rintro ⟨hcin, hcne⟩
      by_cases hc : c = (x, y)
      · exact Or.inl hc
      · right
        refine ⟨hcin, ?_⟩
        rwa [setCell_ne g x y v hc] at hcne
    · rintro (rfl | ⟨hcin, hcne⟩)
      · refine ⟨hin, ?_⟩
        rw [show setCell g x y v ((x, y) : Cell).2 ((x, y) : Cell).1 = v from
          setCell_eq g x y v]
        exact hv
      · refine ⟨hcin, ?_⟩
        by_cases hc : c = (x, y)
        · subst hc
          exact absurd hempty hcne
        · rw [setCell_ne g x y v hc]
          exact hcne
  rw [hsets, Finset.card_insert_of_not_mem]
  intro hmem
  exact (Finset.mem_filter.mp hmem).2 hempty

lemma opponent_of_mem (p : ℕ) :
    opponent_of p = PLAYER_1 ∨ opponent_of p = PLAYER_2 := by
  unfold opponent_of
  split
  · exact Or.inr rfl
  · exact Or.inl rfl

lemma stateInv_init (w h : ℕ) : StateInv (GameLogic_init w h) := by
  refine ⟨?_, rfl, Or.inl rfl⟩
  simp [filledCount, GameLogic_init]

lemma stateInv_place (s : GameState) (hInv : StateInv s) (x y : ℤ) :
    StateInv (place_dot s x y).2 := by
  by_cases hv : validate_move s x y = true
  · obtain ⟨hg, hf, hw, hh, ht, hc⟩ := place_dot_effects s x y hv
    obtain ⟨i1, i2, i3⟩ := hInv
    obtain ⟨hin, hempty⟩ := (validate_move_true_iff s x y).mp hv
    have hcne : s.currentPlayer ≠ EMPTY_CELL := by
      rcases i3 with hp | hp <;> rw [hp] <;> decide
    refine ⟨?_, ?_, ?_⟩
    · unfold filledCount
      rw [hf, hw, hh, hg, filledCount_setCell s.gridWidth s.gridHeight s.grid x y
        s.currentPlayer hin hempty hcne]
      rw [i1]
      rfl
    · rw [ht, hw, hh]
      exact i2
    · rw [hc]
      exact i3
  · have hv' : validate_move s x y = false := by
      cases hvv : validate_move s x y
      · rfl
      · exact absurd hvv hv
    rw [place_dot_of_invalid s x y hv']
    exact hInv

lemma stateInv_switch (s : GameState) (hInv : StateInv s) : StateInv (switch_player s) := by
  obtain ⟨i1, i2, _⟩ := hInv
  exact ⟨i1, i2, opponent_of_mem s.currentPlayer⟩

lemma make_ai_move_random_cases (s : GameState) (draws : List Cell) :
    (make_ai_move_random s draws).2 = s ∨
      ∃ c : Cell, (make_ai_move_random s draws).2 = (place_dot s c.1 c.2).2 := by
  induction draws with
  | nil => exact Or.inl rfl
  | cons c rest ih =>
    by_cases hvalid : is_valid_move s c.1 c.2 = true
    · right
      refine ⟨c, ?_⟩
      simp only [make_ai_move_random, hvalid, if_true]
      split
      · rfl
      · rfl
    · have hvf : is_valid_move s c.1 c.2 = false := by
        cases hvv : is_valid_move s c.1 c.2
        · rfl
        · exact absurd hvv hvalid
      rw [show make_ai_move_random s (c :: rest) = make_ai_move_random s rest from by
        simp [make_ai_move_random, hvf]]
      exact ih

lemma make_ai_move_smart_cases (s : GameState) (coins : ℕ → Bool) (draws : List Cell) :
    (make_ai_move_smart s coins draws).2 = s ∨
      ∃ c : Cell, (make_ai_move_smart s coins draws).2 = (place_dot s c.1 c.2).2 := by
  cases hfc : find_capture_move s with
  | some c =>
    right
    refine ⟨c, ?_⟩
    have he : make_ai_move_smart s coins draws = execute_ai_move s c.1 c.2 := by
      unfold make_ai_move_smart
      rw [hfc]
    rw [he]
    simp only [execute_ai_move]
    split
    · rfl
    · rfl
  | none =>
    cases hfs : find_strategic_move s coins with
    | some c =>
      right
      refine ⟨c, ?_⟩
      have he : make_ai_move_smart s coins draws = execute_ai_move s c.1 c.2 := by
        unfold make_ai_move_smart
        rw [hfc, hfs]
      rw [he]
      simp only [execute_ai_move]
      split
      · rfl
      · rfl
    | none =>
      have he : make_ai_move_smart s coins draws = make_ai_move_random s draws := by
        unfold make_ai_move_smart
        rw [hfc, hfs]
      rw [he]
      exact make_ai_move_random_cases s draws

lemma stateInv_reachable (s : GameState) (hr : Reachable s) : StateInv s := by
  induction hr with
  | init w h => exact stateInv_init w h
  | place x y _ ih => exact stateInv_place _ ih x y
  | switch _ ih => exact stateInv_switch _ ih
  | ai_random draws _ ih =>
    rename_i t _
    rcases make_ai_move_random_cases t draws with he | ⟨c, he⟩
    · rw [he]; exact ih
    · rw [he]; exact stateInv_place _ ih c.1 c.2
  | ai_smart coins draws _ ih =>
    rename_i t _
    rcases make_ai_move_smart_cases t coins draws with he | ⟨c, he⟩
    · rw [he]; exact ih
    · rw [he]; exact stateInv_place _ ih c.1 c.2

lemma place_dot_monotone (s : GameState)
    (hcp : s.currentPlayer = PLAYER_1 ∨ s.currentPlayer = PLAYER_2) (x y : ℤ) :
    s.filledCells ≤ (place_dot s x y).2.filledCells ∧
      ∀ c : Cell, s.grid c.2 c.1 ≠ EMPTY_CELL →
        (place_dot s x y).2.grid c.2 c.1 ≠ EMPTY_CELL := by
  by_cases hv : validate_move s x y = true
  · obtain ⟨hg, hf, _, _, _, _⟩ := place_dot_effects s x y hv
    constructor
    · rw [hf]
      exact Nat.le_succ _
    · intro c hc
      rw [hg]
      by_cases hcxy : c = (x, y)
      · subst hcxy
        rw [show setCell s.grid x y s.currentPlayer ((x, y) : Cell).2 ((x, y) : Cell).1 =
          s.currentPlayer from setCell_eq s.grid x y s.currentPlayer]
        rcases hcp with hp | hp <;> rw [hp] <;> decide
      · rw [setCell_ne s.grid x y s.currentPlayer hcxy]
        exact hc
  · have hv' : validate_move s x y = false := by
      cases hvv : validate_move s x y
      · rfl
      · exact absurd hvv hv
    rw [place_dot_of_invalid s x y hv']
    exact ⟨le_refl _, fun c hc => hc⟩

/-- C7: in every reachable state the filled-cell counter equals the number
of non-empty cells and never exceeds `totalCells`; a successful placement
increases it by exactly 1, and no operation decreases it or returns a
non-empty cell to empty. -/
theorem claim_C7_filled_cells_invariant (s : GameState) (hr : Reachable s) :
    s.filledCells = filledCount s ∧
    s.filledCells ≤ s.totalCells ∧
    (∀ x y : ℤ, validate_move s x y = true →
      (place_dot s x y).2.filledCells = s.filledCells + 1) ∧
    (∀ x y : ℤ, s.filledCells ≤ (place_dot s x y).2.filledCells ∧
      ∀ c : Cell, s.grid c.2 c.1 ≠ EMPTY_CELL →
        (place_dot s x y).2.grid c.2 c.1 ≠ EMPTY_CELL) ∧
    ((switch_player s).filledCells = s.filledCells ∧ (switch_player s).grid = s.grid) ∧
    (∀ draws : List Cell, s.filledCells ≤ (make_ai_move_random s draws).2.filledCells ∧
      ∀ c : Cell, s.grid c.2 c.1 ≠ EMPTY_CELL →
        (make_ai_move_random s draws).2.grid c.2 c.1 ≠ EMPTY_CELL) ∧
    (∀ (coins : ℕ → Bool) (draws : List Cell),
      s.filledCells ≤ (make_ai_move_smart s coins draws).2.filledCells ∧
      ∀ c : Cell, s.grid c.2 c.1 ≠ EMPTY_CELL →
        (make_ai_move_smart s coins draws).2.grid c.2 c.1 ≠ EMPTY_CELL) := by
  obtain ⟨i1, i2, i3⟩ := stateInv_reachable s hr
  refine ⟨i1, ?_, ?_, ?_, ⟨rfl, rfl⟩, ?_, ?_⟩
  · have hle : filledCount s ≤ (allCells s.gridWidth s.gridHeight).card :=
      Finset.card_filter_le _ _
    rw [card_allCells] at hle
    rw [i1, i2]
    exact hle
  · intro x y hv
    exact (place_dot_effects s x y hv).2.1
  · intro x y
    exact place_dot_monotone s i3 x y
  · intro draws
    rcases make_ai_move_random_cases s draws with he | ⟨c, he⟩
    · rw [he]
      exact ⟨le_refl _, fun c hc => hc⟩
    · rw [he]
      exact place_dot_monotone s i3 c.1 c.2
  · intro coins draws
    rcases make_ai_move_smart_cases s coins draws with he | ⟨c, he⟩
    · rw [he]
      exact ⟨le_refl _, fun c hc => hc⟩
    · rw [he]
      exact place_dot_monotone s i3 c.1 c.2

theorem claim_C7_filled_cells_invariant_witness :
    (GameLogic_init 1 1).filledCells = filledCount (GameLogic_init 1 1) ∧
      (GameLogic_init 1 1).filledCells ≤ (GameLogic_init 1 1).totalCells :=
  ⟨(claim_C7_filled_cells_invariant (GameLogic_init 1 1) (Reachable.init 1 1)).1,
    (claim_C7_filled_cells_invariant (GameLogic_init 1 1) (Reachable.init 1 1)).2.1⟩

/-! ## The leaderboard update rule -/

lemma pairwise_enumFrom {α : Type} {R : α → α → Prop} :
    ∀ (l : List α) (n : ℕ), l.Pairwise R →
      (List.enumFrom n l).Pairwise fun p q => R p.2 q.2 := by
  intro l
  induction l with
  | nil => intro n _; exact List.Pairwise.nil
  | cons a l ih =>
    intro n hp
    rw [List.pairwise_cons] at hp
    show ((n, a) :: List.enumFrom (n + 1) l).Pairwise _
    rw [List.pairwise_cons]
    constructor
    · rintro ⟨i, x⟩ hq
      obtain ⟨_, _, h3⟩ := List.mem_enumFrom hq
      have hx : x ∈ l := by
        rw [h3]
        exact List.getElem_mem _
      exact hp.1 x hx
    · exact ih (n + 1) hp.2

/-- C9: `update_leaderboard` on a 3-record table rejects (and persists no
change) iff the lowest-ranked record has a non-sentinel name and its score
is at least the candidate's; otherwise it persists exactly 3 records with
places 1..3, sorted descending by score with sentinel names last, all
drawn from the old records plus the candidate — and the specification's
Alice/Bob/Charlie examples behave as stated. -/
theorem claim_C9_leaderboard_update (lb : List LeaderboardEntry) (hlen : lb.length = 3)
    (newName : String) (newScore : ℤ) :
    ∃ lastE, lb.getLast? = some lastE ∧
      ((update_leaderboard lb newName newScore).1 = false ↔
        lastE.name ≠ DEFAULT_NAME ∧ newScore ≤ lastE.score) ∧
      ((update_leaderboard lb newName newScore).1 = false →
        (update_leaderboard lb newName newScore).2 = lb) ∧
      ((update_leaderboard lb newName newScore).1 = true →
        ((update_leaderboard lb newName newScore).2.length = 3 ∧
         (update_leaderboard lb newName newScore).2.map (fun e => e.place) = [1, 2, 3] ∧
         (update_leaderboard lb newName newScore).2.Pairwise entryGE ∧
         ∀ e ∈ (update_leaderboard lb newName newScore).2,
           ∃ e0 ∈ lb ++ [⟨0, newName, newScore⟩], e.name = e0.name ∧ e.score = e0.score)) ∧
      update_leaderboard lbExample "Dave" 90 =
        (true, [⟨1, "Alice", 100⟩, ⟨2, "Dave", 90⟩, ⟨3, "Bob", 80⟩]) ∧
      update_leaderboard lbExample "Eve" 40 = (false, lbExample) := by
  have hne : lb ≠ [] := by
    intro hnil
    rw [hnil] at hlen
    exact absurd hlen (by decide)
  obtain ⟨lastE, hlast⟩ := Option.isSome_iff_exists.mp (List.getLast?_isSome.mpr hne)
  have hred : update_leaderboard lb newName newScore =
      (if newScore ≤ lastE.score ∧ lastE.name ≠ DEFAULT_NAME then (false, lb)
       else (true, (List.enumFrom 1
          (((lb ++ [(⟨0, newName, newScore⟩ : LeaderboardEntry)]).insertionSort
            entryGE).take LEADERBOARD_SIZE)).map fun p => { p.2 with place := p.1 })) := by
    unfold update_leaderboard
    rw [hlast]
  refine ⟨lastE, hlast, ?_, ?_, ?_, by decide, by decide⟩
  · by_cases hcond : newScore ≤ lastE.score ∧ lastE.name ≠ DEFAULT_NAME
    · rw [hred, if_pos hcond]
      exact ⟨fun _ => ⟨hcond.2, hcond.1⟩, fun _ => rfl⟩
    · rw [hred, if_neg hcond]
      constructor
      · intro hb
        exact Bool.noConfusion hb
      · intro hcl
        exact absurd ⟨hcl.2, hcl.1⟩ hcond
  · by_cases hcond : newScore ≤ lastE.score ∧ lastE.name ≠ DEFAULT_NAME
    · rw [hred, if_pos hcond]
      intro _
      rfl
    · rw [hred, if_neg hcond]
      intro hb
      exact Bool.noConfusion hb
  · by_cases hcond : newScore ≤ lastE.score ∧ lastE.name ≠ DEFAULT_NAME
    · rw [hred, if_pos hcond]
      intro hb
      exact Bool.noConfusion hb
    · rw [hred, if_neg hcond]
      intro _
      have hlen4 : (lb ++ [(⟨0, newName, newScore⟩ : LeaderboardEntry)]).length = 4 := by
        rw [List.length_append, hlen]
        rfl
      have hslen : ((lb ++ [(⟨0, newName, newScore⟩ : LeaderboardEntry)]).insertionSort
          entryGE).length = 4 := by
        rw [(List.perm_insertionSort entryGE _).length_eq, hlen4]
      have htlen : (((lb ++ [(⟨0, newName, newScore⟩ : LeaderboardEntry)]).insertionSort
          entryGE).take LEADERBOARD_SIZE).length = 3 := by
        rw [List.length_take, hslen]
        rfl
      have htp : (((lb ++ [(⟨0, newName, newScore⟩ : LeaderboardEntry)]).insertionSort
          entryGE).take LEADERBOARD_SIZE).Pairwise entryGE :=
        List.Pairwise.sublist (List.take_sublist _ _)
          (List.sorted_insertionSort entryGE _)
      refine ⟨?_, ?_, ?_, ?_⟩
      · rw [List.length_map, List.enumFrom_length]
        exact htlen
      · rw [List.map_map]
        rw [show ((fun e : LeaderboardEntry => e.place) ∘
            fun p : ℕ × LeaderboardEntry => { p.2 with place := p.1 }) = Prod.fst from
          funext fun p => rfl]
        rw [List.enumFrom_map_fst, htlen]
        rfl
      · refine List.pairwise_map.mpr ?_
        refine List.Pairwise.imp ?_ (pairwise_enumFrom _ 1 htp)
        intro p q hpq
        exact hpq
      · intro e he
        rw [List.mem_map] at he
        obtain ⟨p, hp, rfl⟩ := he
        rcases p with ⟨i, x⟩
        obtain ⟨_, _, h3⟩ := List.mem_enumFrom hp
        have hx : x ∈ ((lb ++ [(⟨0, newName, newScore⟩ : LeaderboardEntry)]).insertionSort
            entryGE).take LEADERBOARD_SIZE := by
          rw [h3]
          exact List.getElem_mem _
        have hx2 : x ∈ lb ++ [(⟨0, newName, newScore⟩ : LeaderboardEntry)] :=
          (List.perm_insertionSort entryGE _).subset ((List.take_sublist _ _).subset hx)
        exact ⟨x, hx2, rfl, rfl⟩

theorem claim_C9_leaderboard_update_witness :
    lbExample.length = 3 ∧
      update_leaderboard lbExample "Dave" 90 =
        (true, [⟨1, "Alice", 100⟩, ⟨2, "Dave", 90⟩, ⟨3, "Bob", 80⟩]) :=
  ⟨by decide,
    ((claim_C9_leaderboard_update lbExample (by decide) "Dave" 90).choose_spec.2.2.2.2).1⟩

end Dots
